import Mathlib

/-!
Verification of the hypercalibrate video-pipeline daemon.

Shallow embedding conventions:
* Rust `f64`/`f32` arithmetic is modelled over `ℚ` (exact real arithmetic;
  the program's formulas contain only `+ - * /`, comparisons and `floor`).
* Rust `i32` arithmetic is modelled over `ℤ`; the arithmetic shift `>> 8`
  on `i32` is floor-division by 256 (`Int.fdiv`), which agrees with the
  hardware shift for all in-range values.
* Rust byte buffers (`&[u8]`) are `List ℕ`, in-place writes are `List.set`.
* Rust `Vec::sort_by` is a stable sort; for a total preorder comparator a
  stable sort is unique, so it is modelled by `List.insertionSort` (which
  Mathlib proves stable for the given relation).
-/

namespace HyperCal

/-- Rust `f64::clamp(lo, hi)`: below `lo` gives `lo`, above `hi` gives `hi`. -/
def rclamp (v lo hi : ℚ) : ℚ :=
  if v < lo then lo else if v > hi then hi else v

/-! ### src/config.rs : Point, EdgePoint, Calibration -/

/-- `config.rs::Point` - a 2D point with normalized coordinates. -/
structure Point where
  x : ℚ
  y : ℚ
deriving DecidableEq, Repr

/-- `Point::to_pixels` - convert to pixel coordinates. -/
def Point.to_pixels (p : Point) (width height : ℕ) : ℚ × ℚ :=
  (p.x * width, p.y * height)

/-- `config.rs::EdgePoint` - an edge midpoint with its edge index. -/
structure EdgePoint where
  id : ℕ
  edge : ℕ
  t : ℚ
  x : ℚ
  y : ℚ
deriving DecidableEq, Repr

/-- `EdgePoint::new`. -/
def EdgePoint.new (id edge : ℕ) (t x y : ℚ) : EdgePoint :=
  ⟨id, edge, t, x, y⟩

/-- `config.rs::Calibration`. `corners : [Point; 4]` is modelled as a list
(in-bounds indexing only is exercised by the code). -/
structure Calibration where
  corners : List Point
  edge_points : List EdgePoint
  next_edge_point_id : ℕ
  enabled : Bool
deriving DecidableEq, Repr

/-- `Calibration::default()` - inset 10% frame, no edge points, next id 100. -/
def Calibration.default : Calibration :=
  { corners := [⟨1/10, 1/10⟩, ⟨9/10, 1/10⟩, ⟨9/10, 9/10⟩, ⟨1/10, 9/10⟩]
    edge_points := []
    next_edge_point_id := 100
    enabled := true }

/-- `Calibration::calculate_t_for_edge_static` - project (x,y) onto the edge
vector and clamp to [0,1]; unknown edge or degenerate edge gives 0.5. -/
def calculate_t_for_edge_static (edge : ℕ) (x y : ℚ) (corners : List Point) : ℚ :=
  let idx : Option (ℕ × ℕ) :=
    match edge with
    | 0 => some (0, 1) -- Top: TL -> TR
    | 1 => some (1, 2) -- Right: TR -> BR
    | 2 => some (2, 3) -- Bottom: BR -> BL
    | 3 => some (3, 0) -- Left: BL -> TL
    | _ => none
  match idx with
  | none => 1/2
  | some (fi, ti) =>
    let f := corners.getD fi ⟨0, 0⟩
    let tgt := corners.getD ti ⟨0, 0⟩
    let dx := tgt.x - f.x
    let dy := tgt.y - f.y
    let len_sq := dx * dx + dy * dy
    if len_sq < 1/10000 then 1/2
    else rclamp (((x - f.x) * dx + (y - f.y) * dy) / len_sq) 0 1

/-- `Calibration::calculate_t_for_edge`. -/
def Calibration.calculate_t_for_edge (c : Calibration) (edge : ℕ) (x y : ℚ) : ℚ :=
  calculate_t_for_edge_static edge x y c.corners

/-- Comparator of `Calibration::add_edge_point`'s `sort_by`: by edge index,
then by `t` within one edge (a total preorder, so the stable sort is
`insertionSort` of this relation). -/
def edgeThenT (a b : EdgePoint) : Prop :=
  a.edge < b.edge ∨ (a.edge = b.edge ∧ a.t ≤ b.t)

instance : DecidableRel edgeThenT := fun a b => by
  unfold edgeThenT; infer_instance

/-- `Calibration::add_edge_point` - allocate `id = next_edge_point_id`,
increment the counter, compute `t`, push the raw-coordinate point and
stable-sort by `(edge, t)`. Returns the updated calibration and the id. -/
def Calibration.add_edge_point (c : Calibration) (edge : ℕ) (x y : ℚ) :
    Calibration × ℕ :=
  let id := c.next_edge_point_id
  let t := c.calculate_t_for_edge edge x y
  let pushed := c.edge_points ++ [EdgePoint.new id edge t x y]
  ({ c with
      next_edge_point_id := id + 1
      edge_points := List.insertionSort edgeThenT pushed }, id)

/-- `Calibration::remove_edge_point` - retain points with a different id;
report whether anything was removed. -/
def Calibration.remove_edge_point (c : Calibration) (id : ℕ) :
    Calibration × Bool :=
  let len_before := c.edge_points.length
  let remaining := c.edge_points.filter (fun p => p.id != id)
  ({ c with edge_points := remaining }, remaining.length < len_before)

/-- The in-place mutation of `iter_mut().find(...)` in
`Calibration::update_edge_point`: rewrite the first point with the given id. -/
def update_first_edge_point (pts : List EdgePoint) (id : ℕ) (x y t : ℚ) :
    List EdgePoint :=
  match pts with
  | [] => []
  | p :: rest =>
    if p.id = id then { p with x := x, y := y, t := t } :: rest
    else p :: update_first_edge_point rest id x y t

/-- `Calibration::update_edge_point` - find the point, recompute `t` from the
current corners, store clamped coordinates; `false` when the id is unknown. -/
def Calibration.update_edge_point (c : Calibration) (id : ℕ) (x y : ℚ) :
    Calibration × Bool :=
  match c.edge_points.find? (fun p => p.id == id) with
  | none => (c, false)
  | some p =>
    let t := calculate_t_for_edge_static p.edge x y c.corners
    ({ c with
        edge_points :=
          update_first_edge_point c.edge_points id
            (rclamp x 0 1) (rclamp y 0 1) t }, true)

/-- `calibration.rs::update_calibration_point` - clamp, then: ids 0..=3
replace the corresponding corner, otherwise try an edge-point update
(an unknown id is only logged). -/
def update_calibration_point (c : Calibration) (id : ℕ) (x y : ℚ) :
    Calibration :=
  let x := rclamp x 0 1
  let y := rclamp y 0 1
  if id ≤ 3 then { c with corners := c.corners.set id ⟨x, y⟩ }
  else (c.update_edge_point id x y).1

/-- Comparator of `get_edge_points`' sort: ascending `t`. -/
def byT (a b : EdgePoint) : Prop := a.t ≤ b.t

instance : DecidableRel byT := fun a b => by
  unfold byT; infer_instance

/-- `Calibration::get_edge_points` - the points of one edge, sorted by `t`. -/
def Calibration.get_edge_points (c : Calibration) (edge : ℕ) : List EdgePoint :=
  List.insertionSort byT (c.edge_points.filter (fun p => p.edge == edge))

/-- `Calibration::get_source_corners` - the four corners in pixel space. -/
def Calibration.get_source_corners (c : Calibration) (width height : ℕ) :
    List (ℚ × ℚ) :=
  [(c.corners.getD 0 ⟨0, 0⟩).to_pixels width height,
   (c.corners.getD 1 ⟨0, 0⟩).to_pixels width height,
   (c.corners.getD 2 ⟨0, 0⟩).to_pixels width height,
   (c.corners.getD 3 ⟨0, 0⟩).to_pixels width height]

/-- `Calibration::get_dest_corners` - the full output frame. -/
def Calibration.get_dest_corners (width height : ℕ) : List (ℚ × ℚ) :=
  [(0, 0), ((width : ℚ), 0), ((width : ℚ), (height : ℚ)), (0, (height : ℚ))]

/-! ### src/transform.rs : homography solve (DLT) and perspective transform -/

/-- The singularity threshold `1e-10` of `solve_linear_system` and
`apply_homography`. -/
def epsTiny : ℚ := 1 / 10 ^ 10

/-- Row `2i` and `2i+1` of the 8x8 DLT system of `compute_homography`,
for the correspondence `(x,y) -> (xp,yp)`. -/
def dltRows (src dst : List (ℚ × ℚ)) (i : ℕ) : List (List ℚ) :=
  let p := src.getD i (0, 0)
  let q := dst.getD i (0, 0)
  let x := p.1
  let y := p.2
  let xp := q.1
  let yp := q.2
  [[x, y, 1, 0, 0, 0, -xp * x, -xp * y],
   [0, 0, 0, x, y, 1, -yp * x, -yp * y]]

/-- The matrix `a` built by `compute_homography` (8 rows). -/
def dltMatrix (src dst : List (ℚ × ℚ)) : List (List ℚ) :=
  dltRows src dst 0 ++ dltRows src dst 1 ++ dltRows src dst 2 ++ dltRows src dst 3

/-- The right-hand side `b` built by `compute_homography` (the destination
coordinates, in correspondence order). -/
def dltRhs (dst : List (ℚ × ℚ)) : List ℚ :=
  [(dst.getD 0 (0, 0)).1, (dst.getD 0 (0, 0)).2,
   (dst.getD 1 (0, 0)).1, (dst.getD 1 (0, 0)).2,
   (dst.getD 2 (0, 0)).1, (dst.getD 2 (0, 0)).2,
   (dst.getD 3 (0, 0)).1, (dst.getD 3 (0, 0)).2]

/-- Matrix entry access `a[r][c]`. -/
def mEntry (a : List (List ℚ)) (r c : ℕ) : ℚ := (a.getD r []).getD c 0

/-- The partial-pivoting search of `solve_linear_system`: scan rows
`col+1..8` keeping the first row whose entry strictly beats the running
maximum absolute value (initialised at row `col`). -/
def pivotSearch (a : List (List ℚ)) (col : ℕ) : ℕ :=
  ((List.range 8).drop (col + 1)).foldl
    (fun best row =>
      if |mEntry a row col| > |mEntry a best col| then row else best)
    col

/-- Swap rows `i` and `j` (Rust `slice::swap`). -/
def swapRows (a : List (List ℚ)) (i j : ℕ) : List (List ℚ) :=
  (a.set i (a.getD j [])).set j (a.getD i [])

/-- Swap entries `i` and `j` of the right-hand side. -/
def swapEntries (b : List ℚ) (i j : ℕ) : List ℚ :=
  (b.set i (b.getD j 0)).set j (b.getD i 0)

/-- One row elimination: `a[row][j] -= factor * a[col][j]` for `j in col..8`
and `b[row] -= factor * b[col]`. -/
def elimRow (a : List (List ℚ)) (b : List ℚ) (col row : ℕ) :
    List (List ℚ) × List ℚ :=
  let pivotRow := a.getD col []
  let factor := mEntry a row col / mEntry a col col
  let newRow := (List.range 8).map (fun j =>
    if j < col then (a.getD row []).getD j 0
    else (a.getD row []).getD j 0 - factor * pivotRow.getD j 0)
  (a.set row newRow, b.set row (b.getD row 0 - factor * b.getD col 0))

/-- Eliminate all rows below `col`. -/
def elimBelow (a : List (List ℚ)) (b : List ℚ) (col : ℕ) :
    List (List ℚ) × List ℚ :=
  ((List.range 8).drop (col + 1)).foldl
    (fun ab row => elimRow ab.1 ab.2 col row) (a, b)

/-- Forward elimination with partial pivoting over the listed columns
(the loop `for col in 0..8`, processed as the column list `[0, …, 7]`).
Returns `none` exactly when some pivot has `|pivot| < 1e-10`
(the "singular matrix" early return of `solve_linear_system`). -/
def forwardElimGo (a : List (List ℚ)) (b : List ℚ) :
    List ℕ → Option (List (List ℚ) × List ℚ)
  | [] => some (a, b)
  | col :: rest =>
    let max_row := pivotSearch a col
    let a1 := if max_row ≠ col then swapRows a col max_row else a
    let b1 := if max_row ≠ col then swapEntries b col max_row else b
    let pivot := mEntry a1 col col
    if |pivot| < epsTiny then none
    else
      let ab := elimBelow a1 b1 col
      forwardElimGo ab.1 ab.2 rest

/-- The full forward-elimination pass (columns `0..8`). -/
def forwardElim (a : List (List ℚ)) (b : List ℚ) :
    Option (List (List ℚ) × List ℚ) :=
  forwardElimGo a b (List.range 8)

/-- One step of back substitution: `x[i] = (b[i] - Σ_{j>i} a[i][j]·x[j]) / a[i][i]`. -/
def backSubstStep (a : List (List ℚ)) (b x : List ℚ) (i : ℕ) : List ℚ :=
  let sum := ((List.range 8).drop (i + 1)).foldl
    (fun s j => s - mEntry a i j * x.getD j 0) (b.getD i 0)
  x.set i (sum / mEntry a i i)

/-- Back substitution for rows `i, i-1, ..., 0` (`cnt` is the number of rows
left to process, starting from `i = 7`). -/
def backSubstAux (a : List (List ℚ)) (b x : List ℚ) : ℕ → List ℚ
  | 0 => x
  | cnt + 1 => backSubstAux a b (backSubstStep a b x cnt) cnt

/-- `solve_linear_system`: Gaussian elimination with partial pivoting;
a singular system returns the "identity-ish" vector. -/
def solve_linear_system (a : List (List ℚ)) (b : List ℚ) : List ℚ :=
  match forwardElim a b with
  | none => [1, 0, 0, 0, 1, 0, 0, 0]
  | some (a1, b1) => backSubstAux a1 b1 [0, 0, 0, 0, 0, 0, 0, 0] 8

/-- `compute_homography`: solve the DLT system and append `h9 = 1`. -/
def compute_homography (src dst : List (ℚ × ℚ)) : List ℚ :=
  let h := solve_linear_system (dltMatrix src dst) (dltRhs dst)
  [h.getD 0 0, h.getD 1 0, h.getD 2 0, h.getD 3 0, h.getD 4 0,
   h.getD 5 0, h.getD 6 0, h.getD 7 0, 1]

/-- `apply_homography`: de-homogenize, guarding `|w| < 1e-10` by returning
the input point unchanged. -/
def apply_homography (h : List ℚ) (x y : ℚ) : ℚ × ℚ :=
  let w := h.getD 6 0 * x + h.getD 7 0 * y + h.getD 8 0
  if |w| < epsTiny then (x, y)
  else ((h.getD 0 0 * x + h.getD 1 0 * y + h.getD 2 0) / w,
        (h.getD 3 0 * x + h.getD 4 0 * y + h.getD 5 0) / w)

/-- `transform.rs::PerspectiveTransform` (the `f32` LUT is modelled exactly). -/
structure PerspectiveTransform where
  matrix : List ℚ
  inverse : List ℚ
  src_width : ℕ
  src_height : ℕ
  dst_width : ℕ
  dst_height : ℕ
  lut : List (ℚ × ℚ)
deriving DecidableEq, Repr

/-- `PerspectiveTransform::compute` - matrix, inverse and the LUT
`lut[y·W + x] = apply_homography(inverse, x, y)`. -/
def PerspectiveTransform.compute (src dst : List (ℚ × ℚ))
    (src_width src_height dst_width dst_height : ℕ) : PerspectiveTransform :=
  { matrix := compute_homography src dst
    inverse := compute_homography dst src
    src_width, src_height, dst_width, dst_height
    lut := (List.range dst_height).flatMap (fun (dst_y : ℕ) =>
      (List.range dst_width).map (fun (dst_x : ℕ) =>
        apply_homography (compute_homography dst src)
          ((dst_x : ℚ)) ((dst_y : ℚ)))) }

/-! ### src/transform.rs : SourceMesh (Coons-patch grid for edge points) -/

/-- Linear interpolation between two pixel points (the arithmetic of
`resample_edge` and the grid blends). -/
def lerpPt (p0 p1 : ℚ × ℚ) (frac : ℚ) : ℚ × ℚ :=
  (p0.1 * (1 - frac) + p1.1 * frac, p0.2 * (1 - frac) + p1.2 * frac)

/-- Comparator of `build_edge_sequence`'s `sort_by`: ascending `t` key. -/
def tKeyLe (a b : ℚ × (ℚ × ℚ)) : Prop := a.1 ≤ b.1

instance : DecidableRel tKeyLe := fun a b => by
  unfold tKeyLe; infer_instance

/-- `SourceMesh::build_edge_sequence` - `[(0, start)] ++ edge points ++
[(1, end)]`, stable-sorted by `t`, then projected to the points. -/
def build_edge_sequence (start stop : ℚ × ℚ) (edge_points : List EdgePoint)
    (width height : ℕ) : List (ℚ × ℚ) :=
  let seq : List (ℚ × (ℚ × ℚ)) :=
    (0, start) ::
      (edge_points.map (fun ep => (ep.t, (ep.x * (width : ℚ), ep.y * (height : ℚ)))) ++
        [(1, stop)])
  (List.insertionSort tKeyLe seq).map Prod.snd

/-- `SourceMesh::resample_edge` - linearly resample an edge polyline to
exactly `count` points. -/
def resample_edge (edge : List (ℚ × ℚ)) (count : ℕ) : List (ℚ × ℚ) :=
  if edge.length = count then edge
  else if count = 0 then []
  else if count = 1 then [edge.getD (edge.length / 2) (0, 0)]
  else
    (List.range count).map (fun (i : ℕ) =>
      let t : ℚ := (i : ℚ) / ((count - 1 : ℕ) : ℚ)
      let pos : ℚ := t * ((edge.length - 1 : ℕ) : ℚ)
      let idx : ℕ := pos.floor.toNat
      let frac : ℚ := pos - (idx : ℚ)
      if edge.length - 1 ≤ idx then edge.getD (edge.length - 1) (0, 0)
      else lerpPt (edge.getD idx (0, 0)) (edge.getD (idx + 1) (0, 0)) frac)

/-- The four corner pixel points read by `SourceMesh::from_calibration`. -/
def srcTL (cal : Calibration) (width height : ℕ) : ℚ × ℚ :=
  (cal.get_source_corners width height).getD 0 (0, 0)

def srcTR (cal : Calibration) (width height : ℕ) : ℚ × ℚ :=
  (cal.get_source_corners width height).getD 1 (0, 0)

def srcBR (cal : Calibration) (width height : ℕ) : ℚ × ℚ :=
  (cal.get_source_corners width height).getD 2 (0, 0)

def srcBL (cal : Calibration) (width height : ℕ) : ℚ × ℚ :=
  (cal.get_source_corners width height).getD 3 (0, 0)

/-- Edge 0 sequence (top, TL -> TR). -/
def meshTopEdge (cal : Calibration) (width height : ℕ) : List (ℚ × ℚ) :=
  build_edge_sequence (srcTL cal width height) (srcTR cal width height)
    (cal.get_edge_points 0) width height

/-- Edge 1 sequence (right, TR -> BR). -/
def meshRightEdge (cal : Calibration) (width height : ℕ) : List (ℚ × ℚ) :=
  build_edge_sequence (srcTR cal width height) (srcBR cal width height)
    (cal.get_edge_points 1) width height

/-- Edge 2 sequence (bottom, BR -> BL), reversed to read BL -> BR. -/
def meshBottomEdge (cal : Calibration) (width height : ℕ) : List (ℚ × ℚ) :=
  (build_edge_sequence (srcBR cal width height) (srcBL cal width height)
    (cal.get_edge_points 2) width height).reverse

/-- Edge 3 sequence (left, BL -> TL), reversed to read TL -> BL. -/
def meshLeftEdge (cal : Calibration) (width height : ℕ) : List (ℚ × ℚ) :=
  (build_edge_sequence (srcBL cal width height) (srcTL cal width height)
    (cal.get_edge_points 3) width height).reverse

/-- `cols = max(|top|, |bottom|)`. -/
def meshCols (cal : Calibration) (width height : ℕ) : ℕ :=
  max (meshTopEdge cal width height).length (meshBottomEdge cal width height).length

/-- `rows = max(|left|, |right|)`. -/
def meshRows (cal : Calibration) (width height : ℕ) : ℕ :=
  max (meshLeftEdge cal width height).length (meshRightEdge cal width height).length

/-- The resampled top edge. -/
def meshTopR (cal : Calibration) (width height : ℕ) : List (ℚ × ℚ) :=
  resample_edge (meshTopEdge cal width height) (meshCols cal width height)

/-- The resampled bottom edge. -/
def meshBottomR (cal : Calibration) (width height : ℕ) : List (ℚ × ℚ) :=
  resample_edge (meshBottomEdge cal width height) (meshCols cal width height)

/-- The resampled left edge. -/
def meshLeftR (cal : Calibration) (width height : ℕ) : List (ℚ × ℚ) :=
  resample_edge (meshLeftEdge cal width height) (meshRows cal width height)

/-- The resampled right edge. -/
def meshRightR (cal : Calibration) (width height : ℕ) : List (ℚ × ℚ) :=
  resample_edge (meshRightEdge cal width height) (meshRows cal width height)

/-- The Coons-patch grid point of `SourceMesh::from_calibration`:
`P = L_c + L_d − B` built from the four resampled edges. -/
def gridPointAt (top bottom left right : List (ℚ × ℚ)) (cols rows row col : ℕ) :
    ℚ × ℚ :=
  let v : ℚ := if 1 < rows then (row : ℚ) / ((rows - 1 : ℕ) : ℚ) else 1/2
  let u : ℚ := if 1 < cols then (col : ℚ) / ((cols - 1 : ℕ) : ℚ) else 1/2
  let top_pt := top.getD col (0, 0)
  let bottom_pt := bottom.getD col (0, 0)
  let tb_x := top_pt.1 * (1 - v) + bottom_pt.1 * v
  let tb_y := top_pt.2 * (1 - v) + bottom_pt.2 * v
  let left_pt := left.getD row (0, 0)
  let right_pt := right.getD row (0, 0)
  let lr_x := left_pt.1 * (1 - u) + right_pt.1 * u
  let lr_y := left_pt.2 * (1 - u) + right_pt.2 * u
  let corner_blend :=
    (top.getD 0 (0, 0)).1 * (1 - u) * (1 - v) +
    (top.getD (cols - 1) (0, 0)).1 * u * (1 - v) +
    (bottom.getD 0 (0, 0)).1 * (1 - u) * v +
    (bottom.getD (cols - 1) (0, 0)).1 * u * v
  let corner_blend_y :=
    (top.getD 0 (0, 0)).2 * (1 - u) * (1 - v) +
    (top.getD (cols - 1) (0, 0)).2 * u * (1 - v) +
    (bottom.getD 0 (0, 0)).2 * (1 - u) * v +
    (bottom.getD (cols - 1) (0, 0)).2 * u * v
  (tb_x + lr_x - corner_blend, tb_y + lr_y - corner_blend_y)

/-- `transform.rs::SourceMesh`. -/
structure SourceMesh where
  grid : List (List (ℚ × ℚ))
  cols : ℕ
  rows : ℕ
deriving DecidableEq, Repr

/-- `SourceMesh::from_calibration` - four edge sequences, resampled to the
common counts, blended into the Coons-patch grid. -/
def SourceMesh.from_calibration (cal : Calibration) (width height : ℕ) :
    SourceMesh :=
  let cols := meshCols cal width height
  let rows := meshRows cal width height
  { grid := (List.range rows).map (fun row =>
      (List.range cols).map (fun col =>
        gridPointAt (meshTopR cal width height) (meshBottomR cal width height)
          (meshLeftR cal width height) (meshRightR cal width height)
          cols rows row col))
    cols, rows }

/-- `SourceMesh::sample` at normalized `(u, v)`. -/
def SourceMesh.sample (m : SourceMesh) (u v : ℚ) : ℚ × ℚ :=
  if m.cols < 2 ∨ m.rows < 2 then
    if m.grid ≠ [] ∧ m.grid.getD 0 [] ≠ [] then (m.grid.getD 0 []).getD 0 (0, 0)
    else (0, 0)
  else
    let col_f := u * ((m.cols - 1 : ℕ) : ℚ)
    let row_f := v * ((m.rows - 1 : ℕ) : ℚ)
    let col0 := min col_f.floor.toNat (m.cols - 2)
    let row0 := min row_f.floor.toNat (m.rows - 2)
    let col1 := col0 + 1
    let row1 := row0 + 1
    let cu := col_f - (col0 : ℚ)
    let cv := row_f - (row0 : ℚ)
    let p00 := (m.grid.getD row0 []).getD col0 (0, 0)
    let p10 := (m.grid.getD row0 []).getD col1 (0, 0)
    let p01 := (m.grid.getD row1 []).getD col0 (0, 0)
    let p11 := (m.grid.getD row1 []).getD col1 (0, 0)
    (p00.1 * (1 - cu) * (1 - cv) + p10.1 * cu * (1 - cv) +
       p01.1 * (1 - cu) * cv + p11.1 * cu * cv,
     p00.2 * (1 - cu) * (1 - cv) + p10.2 * cu * (1 - cv) +
       p01.2 * (1 - cu) * cv + p11.2 * cu * cv)

/-- `PerspectiveTransform::from_calibration_with_grid` - mesh-driven LUT. -/
def PerspectiveTransform.from_calibration_with_grid (cal : Calibration)
    (width height : ℕ) : PerspectiveTransform :=
  let mesh := SourceMesh.from_calibration cal width height
  let src_corners := cal.get_source_corners width height
  let dst_corners := Calibration.get_dest_corners width height
  { matrix := compute_homography src_corners dst_corners
    inverse := compute_homography dst_corners src_corners
    src_width := width, src_height := height
    dst_width := width, dst_height := height
    lut := (List.range height).flatMap (fun (dst_y : ℕ) =>
      (List.range width).map (fun (dst_x : ℕ) =>
        mesh.sample ((dst_x : ℚ) / ((max (width - 1) 1 : ℕ) : ℚ))
          ((dst_y : ℚ) / ((max (height - 1) 1 : ℕ) : ℚ)))) }

/-- `PerspectiveTransform::from_calibration` - 4-corner homography when no
edge points exist, otherwise the grid. -/
def PerspectiveTransform.from_calibration (cal : Calibration)
    (width height : ℕ) : PerspectiveTransform :=
  if cal.edge_points.isEmpty then
    PerspectiveTransform.compute (cal.get_source_corners width height)
      (Calibration.get_dest_corners width height) width height width height
  else PerspectiveTransform.from_calibration_with_grid cal width height

/-- `PerspectiveTransform::transform_point`. -/
def PerspectiveTransform.transform_point (t : PerspectiveTransform) (x y : ℚ) :
    ℚ × ℚ :=
  apply_homography t.matrix x y

/-- `PerspectiveTransform::inverse_transform_point`. -/
def PerspectiveTransform.inverse_transform_point
    (t : PerspectiveTransform) (x y : ℚ) : ℚ × ℚ :=
  apply_homography t.inverse x y

/-! ### src/capture.rs and src/color.rs : YUYV -> RGB converters -/

/-- Rust `>> 8` on `i32` (arithmetic shift) is floor-division by 256. -/
def asr8 (z : ℤ) : ℤ := Int.fdiv z 256

/-- `i32::clamp(0, 255)` followed by the `as u8` cast (in range after the
clamp, so the cast is exact). -/
def clamp0255 (z : ℤ) : ℕ :=
  (if z < 0 then 0 else if 255 < z then 255 else z).toNat

/-- Write the six bytes of one converted pixel pair at `rgb[6i .. 6i+5]`. -/
def writeGroup (vals : ℕ → ℕ) (rgb : List ℕ) (i : ℕ) : List ℕ :=
  (((((rgb.set (6 * i) (vals 0)).set (6 * i + 1) (vals 1)).set (6 * i + 2)
    (vals 2)).set (6 * i + 3) (vals 3)).set (6 * i + 4) (vals 4)).set
    (6 * i + 5) (vals 5)

/-- The shared loop shape of `yuyv_to_rgb` and `yuyv_to_rgb_corrected`:
process pixel pairs `i = 0 .. pixels/2`, breaking when either buffer is too
short (`yuyv_offset + 3 >= yuyv.len() || rgb_offset + 5 >= rgb.len()`). -/
def convertLoop (valsAt : ℕ → ℕ → ℕ) (yuyvLen : ℕ) (rgb : List ℕ)
    (i : ℕ) : (rem : ℕ) → List ℕ
  | 0 => rgb
  | rem + 1 =>
    if yuyvLen ≤ 4 * i + 3 ∨ rgb.length ≤ 6 * i + 5 then rgb
    else convertLoop valsAt yuyvLen (writeGroup (valsAt i) rgb i) (i + 1) rem

/-- The six output bytes of `capture.rs::yuyv_to_rgb` for the byte group
`[Y0, U, Y1, V]` at offset `4i`: integer BT.601 scaled by 256, `U,V` biased
by −128, channels clamped to `[0, 255]`. -/
def yuyvGroupVals (yuyv : List ℕ) (i : ℕ) : ℕ → ℕ :=
  let y0 : ℤ := (yuyv.getD (4 * i) 0 : ℤ)
  let u : ℤ := (yuyv.getD (4 * i + 1) 0 : ℤ) - 128
  let y1 : ℤ := (yuyv.getD (4 * i + 2) 0 : ℤ)
  let v : ℤ := (yuyv.getD (4 * i + 3) 0 : ℤ) - 128
  let v_r := asr8 (359 * v)
  let uv_g := asr8 (88 * u + 183 * v)
  let u_b := asr8 (454 * u)
  fun c =>
    match c with
    | 0 => clamp0255 (y0 + v_r)
    | 1 => clamp0255 (y0 - uv_g)
    | 2 => clamp0255 (y0 + u_b)
    | 3 => clamp0255 (y1 + v_r)
    | 4 => clamp0255 (y1 - uv_g)
    | _ => clamp0255 (y1 + u_b)

/-- `capture.rs::yuyv_to_rgb` - fast-path BT.601 conversion, two RGB
triplets per four input bytes, written in place into `rgb`. -/
def yuyv_to_rgb (yuyv rgb : List ℕ) (width height : ℕ) : List ℕ :=
  convertLoop (yuyvGroupVals yuyv) yuyv.length rgb 0 (width * height / 2)

/-- `color.rs::ColorSpace`. -/
inductive ColorSpace where
  | bt601
  | bt709
  | bt2020
deriving DecidableEq, Repr

/-- `color.rs::QuantizationRange`. -/
inductive QuantizationRange where
  | limited
  | full
deriving DecidableEq, Repr

/-- `color.rs::FixedPointMatrix`. -/
structure FixedPointMatrix where
  kr : ℤ
  kg_u : ℤ
  kg_v : ℤ
  kb : ℤ
deriving DecidableEq, Repr

/-- `ColorMatrix::from_color_space(..).to_fixed_point()`: the exact values of
`(k * 256.0) as i32` for each `f32` coefficient (all products are at least
0.03 away from an integer, far beyond `f32` rounding error, so the
truncations are unambiguous). -/
def fixedPointOf : ColorSpace → FixedPointMatrix
  | .bt601 => ⟨358, 88, 182, 453⟩   -- 1.402, 0.344136, 0.714136, 1.772
  | .bt709 => ⟨403, 47, 119, 475⟩   -- 1.5748, 0.1873, 0.4681, 1.8556
  | .bt2020 => ⟨377, 42, 146, 481⟩  -- 1.4746, 0.1646, 0.5714, 1.8814

/-- The `(y_offset, y_scale, c_scale)` triple of `yuyv_to_rgb_corrected`. -/
def rangeParams : QuantizationRange → ℤ × ℤ × ℤ
  | .limited => (16, 298, 291)
  | .full => (0, 256, 256)

/-- Luma range expansion of `yuyv_to_rgb_corrected`:
`((y_raw - y_offset) * y_scale) >> 8`. -/
def expandLuma (range : QuantizationRange) (yraw : ℤ) : ℤ :=
  asr8 ((yraw - (rangeParams range).1) * (rangeParams range).2.1)

/-- Chroma range expansion of `yuyv_to_rgb_corrected`:
`((c_raw - 128) * c_scale) >> 8`. -/
def expandChroma (range : QuantizationRange) (craw : ℤ) : ℤ :=
  asr8 ((craw - 128) * (rangeParams range).2.2)

/-- The six output bytes of `color.rs::yuyv_to_rgb_corrected` for the group
at offset `4i`: range expansion, then the fixed-point color matrix. -/
def correctedGroupVals (matrix : FixedPointMatrix) (range : QuantizationRange)
    (yuyv : List ℕ) (i : ℕ) : ℕ → ℕ :=
  let y0 := expandLuma range (yuyv.getD (4 * i) 0 : ℤ)
  let u := expandChroma range (yuyv.getD (4 * i + 1) 0 : ℤ)
  let y1 := expandLuma range (yuyv.getD (4 * i + 2) 0 : ℤ)
  let v := expandChroma range (yuyv.getD (4 * i + 3) 0 : ℤ)
  let v_r := asr8 (matrix.kr * v)
  let uv_g := asr8 (matrix.kg_u * u + matrix.kg_v * v)
  let u_b := asr8 (matrix.kb * u)
  fun c =>
    match c with
    | 0 => clamp0255 (y0 + v_r)
    | 1 => clamp0255 (y0 - uv_g)
    | 2 => clamp0255 (y0 + u_b)
    | 3 => clamp0255 (y1 + v_r)
    | 4 => clamp0255 (y1 - uv_g)
    | _ => clamp0255 (y1 + u_b)

/-- `color.rs::yuyv_to_rgb_corrected` - color-space- and range-aware
conversion, written in place into `rgb`. -/
def yuyv_to_rgb_corrected (yuyv rgb : List ℕ) (width height : ℕ)
    (color_space : ColorSpace) (input_range : QuantizationRange) : List ℕ :=
  convertLoop (correctedGroupVals (fixedPointOf color_space) input_range yuyv)
    yuyv.length rgb 0 (width * height / 2)

/-! ### src/output.rs : VirtualCamera::write_raw backpressure handling -/

/-- The write errors distinguished by `VirtualCamera::write_raw` (plus the
not-open error; `other` carries an opaque errno). -/
inductive OutErr where
  | eagain
  | ewouldblock
  | einval
  | notConnected
  | other (errno : ℕ)
deriving DecidableEq, Repr

/-- The mutable `VirtualCamera` fields touched by `write_raw` and
`record_dropped_frame`. Time (`Instant`) is modelled as a natural-number
timestamp in seconds; `last.elapsed() = now - last`. -/
structure VirtualCameraState where
  fileOpen : Bool
  frame_count : ℕ
  dropped_count : ℕ
  last_drop_warn : Option ℕ
deriving DecidableEq, Repr

/-- `VirtualCamera::record_dropped_frame` at time `now`: bump the counter
and warn when no warning was ever issued or the last one is ≥ 5 s old.
Returns the new state and whether a warning was emitted. -/
def record_dropped_frame (s : VirtualCameraState) (now : ℕ) :
    VirtualCameraState × Bool :=
  let dropped := s.dropped_count + 1
  let should_warn :=
    match s.last_drop_warn with
    | none => true
    | some last => 5 ≤ now - last
  if should_warn then
    ({ s with dropped_count := dropped, last_drop_warn := some now }, true)
  else ({ s with dropped_count := dropped }, false)

/-- `VirtualCamera::write_raw` at time `now`, given the outcome of the
underlying device write (`none` = success): EAGAIN/EWOULDBLOCK drop the
frame and succeed, EINVAL and any other error propagate. Returns
`(io_result, new_state, warned)`. -/
def write_raw (s : VirtualCameraState) (devResult : Option OutErr) (now : ℕ) :
    Option OutErr × VirtualCameraState × Bool :=
  if s.fileOpen then
    match devResult with
    | none => (none, s, false)
    | some .eagain =>
      let r := record_dropped_frame s now
      (none, r.1, r.2)
    | some .ewouldblock =>
      let r := record_dropped_frame s now
      (none, r.1, r.2)
    | some .einval => (some .einval, s, false)
    | some e => (some e, s, false)
  else (some .notConnected, s, false)

/-- The timestamps at which a warning is emitted over a sequence of dropped
frames at the given times. -/
def dropWarnTimes (s : VirtualCameraState) : List ℕ → List ℕ
  | [] => []
  | t :: ts =>
    let r := record_dropped_frame s t
    (if r.2 then [t] else []) ++ dropWarnTimes r.1 ts

/-! ### src/server.rs + src/video_settings.rs : set_video_settings -/

/-- `video_settings.rs::ResolutionInfo` (framerates carry the `f64` fps,
modelled as `ℚ`). -/
structure ResolutionInfo where
  width : ℕ
  height : ℕ
  framerates : List ℚ
deriving DecidableEq, Repr

/-- The capability data consulted by `set_video_settings` (the format list
and current-settings echo of `CameraCapabilities` are not read there). -/
structure CameraCapabilities where
  resolutions : List ResolutionInfo
deriving DecidableEq, Repr

/-- `video_settings.rs::PendingVideoSettings`. -/
structure PendingVideoSettings where
  width : Option ℕ
  height : Option ℕ
  fps : Option ℕ
  needs_restart : Bool
deriving DecidableEq, Repr

/-- `PendingVideoSettings::clear`. -/
def PendingVideoSettings.clear : PendingVideoSettings :=
  ⟨none, none, none, false⟩

/-- The state read and written by the video-settings path: the immutable
current triple on `AppState`, the persisted `config.video` triple, and the
pending record. File persistence is modelled by the `persisted` field. -/
structure AppStateModel where
  width : ℕ
  height : ℕ
  fps : ℕ
  persistedWidth : ℕ
  persistedHeight : ℕ
  persistedFps : ℕ
  pending : PendingVideoSettings
deriving DecidableEq, Repr

/-- The Rust `f64 as u32` cast for a non-negative fps value (saturating
truncation; all fps here are small and non-negative, where it is `⌊·⌋`). -/
def fpsAsU32 (q : ℚ) : ℕ := q.floor.toNat

/-- `resolution_valid` of `set_video_settings`. -/
def resolutionValid (caps : CameraCapabilities) (w h : ℕ) : Bool :=
  caps.resolutions.any (fun r => r.width == w && r.height == h)

/-- `fps_valid` of `set_video_settings`: the framerate list of the first
matching resolution entry must contain the requested fps
(`fr.fps as u32 == request.fps`). -/
def fpsValid (caps : CameraCapabilities) (w h fps : ℕ) : Bool :=
  ((caps.resolutions.find? (fun r => r.width == w && r.height == h)).map
    (fun r => r.framerates.any (fun fr => fpsAsU32 fr == fps))).getD false

/-- `AppState::set_pending_video_settings` (all three fields supplied, the
only call shape used by `set_video_settings`; config save abstracted as the
`persisted*` fields). -/
def set_pending_video_settings (st : AppStateModel) (w h fps : ℕ) :
    AppStateModel :=
  let width_changed := w ≠ st.width
  let height_changed := h ≠ st.height
  let fps_changed := fps ≠ st.fps
  if width_changed ∨ height_changed ∨ fps_changed then
    { st with
        pending :=
          { width := if width_changed then some w else none
            height := if height_changed then some h else none
            fps := if fps_changed then some fps else none
            needs_restart := true }
        persistedWidth := w
        persistedHeight := h
        persistedFps := fps }
  else { st with pending := PendingVideoSettings.clear }

/-- The response bodies of `server.rs::set_video_settings`. -/
inductive VsResponse where
  | invalidResolution
  | invalidFramerate
  | alreadyCurrent
  | saved
  | saveFailed
deriving DecidableEq, Repr

/-- The HTTP status of each `set_video_settings` response. -/
def VsResponse.status : VsResponse → ℕ
  | .invalidResolution => 400
  | .invalidFramerate => 400
  | .alreadyCurrent => 200
  | .saved => 200
  | .saveFailed => 500

/-- `server.rs::set_video_settings` for a request `(w, h, fps)`.
`caps` is the result of `get_camera_capabilities` (`none` = query failed,
validation skipped); `saveOk` is the outcome of
`save_video_settings_to_config`. Returns the response and the new state. -/
def set_video_settings (st : AppStateModel) (w h fps : ℕ)
    (caps : Option CameraCapabilities) (saveOk : Bool) :
    VsResponse × AppStateModel :=
  let validationFailure : Option VsResponse :=
    match caps with
    | some c =>
      if ¬resolutionValid c w h then some .invalidResolution
      else if ¬fpsValid c w h fps then some .invalidFramerate
      else none
    | none => none
  match validationFailure with
  | some resp => (resp, st)
  | none =>
    let same_as_current := w = st.width ∧ h = st.height ∧ fps = st.fps
    if same_as_current then
      (.alreadyCurrent, { st with pending := PendingVideoSettings.clear })
    else
      let st1 := set_pending_video_settings st w h fps
      if saveOk then (.saved, st1) else (.saveFailed, st1)

/-! ## Supporting lemmas -/

theorem getD_set_self {α : Type} (l : List α) (i : ℕ) (a d : α)
    (h : i < l.length) : (l.set i a).getD i d = a := by
  simp [List.getD_eq_getElem?_getD, List.getElem?_set_self h]

theorem getD_set_ne {α : Type} (l : List α) (i j : ℕ) (a d : α)
    (h : i ≠ j) : (l.set i a).getD j d = l.getD j d := by
  simp [List.getD_eq_getElem?_getD, List.getElem?_set_ne h]

/-! ## Claim C10 -/

/-- Claim C10: applying a homography is total: whenever the homogeneous
factor `w = h[6]·x + h[7]·y + h[8]` has `|w| < 1e-10`, `apply_homography`
(and hence `transform_point` and `inverse_transform_point`) returns the
input point unchanged instead of dividing by `w`. -/
theorem C10_homography_division_guard :
    (∀ (h : List ℚ) (x y : ℚ),
        |h.getD 6 0 * x + h.getD 7 0 * y + h.getD 8 0| < epsTiny →
        apply_homography h x y = (x, y)) ∧
    (∀ (t : PerspectiveTransform) (x y : ℚ),
        |t.matrix.getD 6 0 * x + t.matrix.getD 7 0 * y + t.matrix.getD 8 0| <
            epsTiny →
        t.transform_point x y = (x, y)) ∧
    (∀ (t : PerspectiveTransform) (x y : ℚ),
        |t.inverse.getD 6 0 * x + t.inverse.getD 7 0 * y + t.inverse.getD 8 0| <
            epsTiny →
        t.inverse_transform_point x y = (x, y)) := by
  refine ⟨fun h x y hw => ?_, fun t x y hw => ?_, fun t x y hw => ?_⟩ <;>
  · simp only [apply_homography, PerspectiveTransform.transform_point,
      PerspectiveTransform.inverse_transform_point]
    rw [if_pos hw]

unseal Rat.mul Rat.add Rat.sub Rat.inv in
/-- Witness for C10 at the all-zero matrix (where `w = 0`). -/
theorem C10_homography_division_guard_witness :
    apply_homography [0, 0, 0, 0, 0, 0, 0, 0, 0] 3 4 = (3, 4) ∧
    PerspectiveTransform.transform_point
      ⟨[0, 0, 0, 0, 0, 0, 0, 0, 0], [0, 0, 0, 0, 0, 0, 0, 0, 0],
        0, 0, 0, 0, []⟩ 3 4 = (3, 4) ∧
    PerspectiveTransform.inverse_transform_point
      ⟨[0, 0, 0, 0, 0, 0, 0, 0, 0], [0, 0, 0, 0, 0, 0, 0, 0, 0],
        0, 0, 0, 0, []⟩ 3 4 = (3, 4) :=
  ⟨C10_homography_division_guard.1 _ 3 4 (by decide),
   C10_homography_division_guard.2.1 _ 3 4 (by decide),
   C10_homography_division_guard.2.2 _ 3 4 (by decide)⟩

/-! ## Claim C9 -/

/-- Claim C9: a point update whose id is neither a corner id (0..=3) nor an
existing edge-point id leaves the calibration completely unchanged. -/
theorem C9_unknown_id_ignored (c : Calibration) (id : ℕ) (x y : ℚ)
    (hid : ¬ id ≤ 3) (hmem : ∀ p ∈ c.edge_points, p.id ≠ id) :
    update_calibration_point c id x y = c := by
  have hf : c.edge_points.find? (fun p => p.id == id) = none := by
    rw [List.find?_eq_none]
    intro p hp
    simpa using hmem p hp
  simp [update_calibration_point, Calibration.update_edge_point, hid, hf]

unseal Rat.mul Rat.add Rat.sub Rat.inv in
/-- Witness for C9: updating unknown id 50 on the default calibration. -/
theorem C9_unknown_id_ignored_witness :
    update_calibration_point Calibration.default 50 (1/2) (1/2) =
      Calibration.default :=
  C9_unknown_id_ignored Calibration.default 50 (1/2) (1/2)
    (by decide) (by decide)

/-! ## Claim C1 (corrected) -/

unseal Rat.mul Rat.add Rat.sub Rat.inv in
/-- Counterexample to claim C1 as stated: `add_edge_point` with coordinates
`x = 3/2, y = -1/2` stores them unclamped, so after the write a stored
edge-point coordinate lies outside `[0, 1]`. -/
theorem C1_clamped_writes_counterexample :
    ¬ (∀ p ∈ (Calibration.default.add_edge_point 0 (3/2) (-(1/2))).1.edge_points,
        0 ≤ p.x ∧ p.x ≤ 1 ∧ 0 ≤ p.y ∧ p.y ≤ 1) := by
  decide

theorem update_first_edge_point_mem {pts : List EdgePoint} {id : ℕ}
    {x y t : ℚ} :
    ∀ q ∈ update_first_edge_point pts id x y t,
      q ∈ pts ∨ (q.x = x ∧ q.y = y) := by
  induction pts with
  | nil => intro q hq; simp [update_first_edge_point] at hq
  | cons p rest ih =>
    intro q hq
    by_cases hp : p.id = id
    · simp only [update_first_edge_point, if_pos hp, List.mem_cons] at hq
      rcases hq with hq | hq
      · exact Or.inr (by simp [hq])
      · exact Or.inl (List.mem_cons_of_mem _ hq)
    · simp only [update_first_edge_point, if_neg hp, List.mem_cons] at hq
      rcases hq with hq | hq
      · exact Or.inl (by simp [hq])
      · rcases ih q hq with h | h
        · exact Or.inl (List.mem_cons_of_mem _ h)
        · exact Or.inr h

/-- Claim C1 amended: corner writes (ids 0..=3) and edge-point updates store
coordinates clamped to `[0, 1]` (and `rclamp · 0 1` always lands in
`[0, 1]`), but `add_edge_point` stores the supplied coordinates unclamped
(only `t` is clamped): the freshly added point carries exactly the raw
`x` and `y`. -/
theorem C1_clamping_amended :
    ∀ (c : Calibration) (id edge : ℕ) (x y : ℚ),
      (∀ v : ℚ, 0 ≤ rclamp v 0 1 ∧ rclamp v 0 1 ≤ 1) ∧
      (id ≤ 3 → id < c.corners.length →
        (update_calibration_point c id x y).corners.getD id ⟨0, 0⟩ =
          ⟨rclamp x 0 1, rclamp y 0 1⟩) ∧
      (∀ p ∈ (c.update_edge_point id x y).1.edge_points,
          p ∈ c.edge_points ∨ (p.x = rclamp x 0 1 ∧ p.y = rclamp y 0 1)) ∧
      (∃ p ∈ (c.add_edge_point edge x y).1.edge_points,
          p.id = c.next_edge_point_id ∧ p.x = x ∧ p.y = y) := by
  intro c id edge x y
  refine ⟨?_, ?_, ?_, ?_⟩
  · intro v
    unfold rclamp
    split_ifs with h1 h2
    · exact ⟨le_refl 0, by norm_num⟩
    · exact ⟨by norm_num, le_refl 1⟩
    · exact ⟨le_of_not_lt h1, le_of_not_lt h2⟩
  · intro hid hlen
    simp only [update_calibration_point, if_pos hid]
    exact getD_set_self _ _ _ _ hlen
  · intro p hp
    unfold Calibration.update_edge_point at hp
    rcases hfind : c.edge_points.find? (fun q => q.id == id) with _ | q
    · rw [hfind] at hp
      exact Or.inl hp
    · rw [hfind] at hp
      simp only at hp
      exact update_first_edge_point_mem p hp
  · refine ⟨EdgePoint.new c.next_edge_point_id edge
      (c.calculate_t_for_edge edge x y) x y, ?_, rfl, rfl, rfl⟩
    unfold Calibration.add_edge_point
    simp only
    rw [List.mem_insertionSort]
    simp [EdgePoint.new]

unseal Rat.mul Rat.add Rat.sub Rat.inv in
/-- Witness for C1's amended claim at a concrete calibration and inputs. -/
theorem C1_clamping_amended_witness :
    (∀ v : ℚ, 0 ≤ rclamp v 0 1 ∧ rclamp v 0 1 ≤ 1) ∧
    (0 ≤ 3 → 0 < Calibration.default.corners.length →
      (update_calibration_point Calibration.default 0 (3/2) (-(1/2))).corners.getD
          0 ⟨0, 0⟩ =
        ⟨rclamp (3/2) 0 1, rclamp (-(1/2)) 0 1⟩) ∧
    (∀ p ∈ (Calibration.default.update_edge_point 0 (3/2) (-(1/2))).1.edge_points,
        p ∈ Calibration.default.edge_points ∨
          (p.x = rclamp (3/2) 0 1 ∧ p.y = rclamp (-(1/2)) 0 1)) ∧
    (∃ p ∈ (Calibration.default.add_edge_point 0 (3/2) (-(1/2))).1.edge_points,
        p.id = Calibration.default.next_edge_point_id ∧
          p.x = 3/2 ∧ p.y = -(1/2)) := by
  have h := C1_clamping_amended Calibration.default 0 0 (3/2) (-(1/2))
  exact ⟨h.1, fun _ _ => h.2.1 (by decide) (by decide), h.2.2.1, h.2.2.2⟩

/-! ## Claim C5 -/

theorem dropWarnTimes_chain_aux :
    ∀ (ts : List ℕ) (s : VirtualCameraState),
      (s.last_drop_warn.toList ++ dropWarnTimes s ts).Chain'
        (fun a b => a + 5 ≤ b) := by
  intro ts
  induction ts with
  | nil =>
    intro s
    simp only [dropWarnTimes, List.append_nil]
    cases s.last_drop_warn <;> simp
  | cons t ts ih =>
    intro s
    simp only [dropWarnTimes]
    rcases hl : s.last_drop_warn with _ | l
    · have hrec : record_dropped_frame s t =
          ({ s with dropped_count := s.dropped_count + 1, last_drop_warn := some t }, true) := by
        simp [record_dropped_frame, hl]
      rw [hrec]
      have h2 := ih { s with dropped_count := s.dropped_count + 1, last_drop_warn := some t }
      simpa using h2
    · by_cases hw : 5 ≤ t - l
      · have hrec : record_dropped_frame s t =
            ({ s with dropped_count := s.dropped_count + 1, last_drop_warn := some t }, true) := by
          simp [record_dropped_frame, hl, hw]
        rw [hrec]
        have h2 := ih { s with dropped_count := s.dropped_count + 1, last_drop_warn := some t }
        simp only [Option.toList, if_pos, List.singleton_append,
          List.cons_append, List.nil_append] at h2 ⊢
        rw [List.chain'_cons]
        exact ⟨by omega, by simpa using h2⟩
      · have hrec : record_dropped_frame s t =
            ({ s with dropped_count := s.dropped_count + 1 }, false) := by
          simp [record_dropped_frame, hl, hw]
        rw [hrec]
        have h2 := ih { s with dropped_count := s.dropped_count + 1 }
        simpa [hl] using h2

/-- Claim C5: on EAGAIN/EWOULDBLOCK the loopback frame write succeeds
(the producer is not blocked), the dropped-frame counter goes up by exactly
one and the warning is rate-limited to one per 5 seconds (consecutive
warning timestamps are ≥ 5 s apart); EINVAL is returned as fatal for the
frame, and any other error is returned unchanged, in both cases without
touching the counters. -/
theorem C5_write_raw_backpressure :
    (∀ (s : VirtualCameraState) (now : ℕ), s.fileOpen = true →
      ((write_raw s (some .eagain) now).1 = none ∧
        (write_raw s (some .eagain) now).2.1.dropped_count =
          s.dropped_count + 1) ∧
      ((write_raw s (some .ewouldblock) now).1 = none ∧
        (write_raw s (some .ewouldblock) now).2.1.dropped_count =
          s.dropped_count + 1) ∧
      write_raw s (some .einval) now = (some .einval, s, false) ∧
      (∀ errno : ℕ, write_raw s (some (.other errno)) now =
        (some (.other errno), s, false))) ∧
    (∀ (s : VirtualCameraState) (ts : List ℕ),
      (dropWarnTimes s ts).Chain' (fun a b => a + 5 ≤ b)) := by
  constructor
  · intro s now hopen
    refine ⟨?_, ?_, ?_, fun errno => ?_⟩ <;>
      simp [write_raw, hopen, record_dropped_frame] <;>
      split <;> simp
  · intro s ts
    have h := dropWarnTimes_chain_aux ts s
    rw [List.chain'_append] at h
    exact h.2.1

/-- Witness for C5 at a concrete open camera state and drop sequence. -/
theorem C5_write_raw_backpressure_witness :
    (((write_raw ⟨true, 7, 3, some 2⟩ (some .eagain) 4).1 = none ∧
        (write_raw ⟨true, 7, 3, some 2⟩ (some .eagain) 4).2.1.dropped_count =
          3 + 1) ∧
      ((write_raw ⟨true, 7, 3, some 2⟩ (some .ewouldblock) 4).1 = none ∧
        (write_raw ⟨true, 7, 3, some 2⟩ (some .ewouldblock) 4).2.1.dropped_count =
          3 + 1) ∧
      write_raw ⟨true, 7, 3, some 2⟩ (some .einval) 4 =
        (some .einval, ⟨true, 7, 3, some 2⟩, false) ∧
      (∀ errno : ℕ, write_raw ⟨true, 7, 3, some 2⟩ (some (.other errno)) 4 =
        (some (.other errno), ⟨true, 7, 3, some 2⟩, false))) ∧
    (dropWarnTimes ⟨true, 0, 0, none⟩ [0, 1, 2, 6, 12]).Chain'
      (fun a b => a + 5 ≤ b) :=
  ⟨C5_write_raw_backpressure.1 ⟨true, 7, 3, some 2⟩ 4 rfl,
   C5_write_raw_backpressure.2 ⟨true, 0, 0, none⟩ [0, 1, 2, 6, 12]⟩

/-! ## Claim C6 -/

/-- Claim C6: a requested (width, height, fps) whose resolution is not in
the capabilities list, or whose fps is not in that resolution's framerate
list, makes `set_video_settings` answer with an invalid-settings response
(HTTP 400) and leaves the whole state - persisted configuration and the
cleared pending record - unchanged. -/
theorem C6_invalid_settings_rejected (st : AppStateModel) (w h fps : ℕ)
    (c : CameraCapabilities) (saveOk : Bool)
    (hbad : resolutionValid c w h = false ∨ fpsValid c w h fps = false) :
    ((set_video_settings st w h fps (some c) saveOk).1 = .invalidResolution ∨
      (set_video_settings st w h fps (some c) saveOk).1 = .invalidFramerate) ∧
    (set_video_settings st w h fps (some c) saveOk).1.status = 400 ∧
    (set_video_settings st w h fps (some c) saveOk).2 = st ∧
    (set_video_settings st w h fps (some c) saveOk).2.persistedWidth =
      st.persistedWidth ∧
    (set_video_settings st w h fps (some c) saveOk).2.persistedHeight =
      st.persistedHeight ∧
    (set_video_settings st w h fps (some c) saveOk).2.persistedFps =
      st.persistedFps ∧
    (set_video_settings st w h fps (some c) saveOk).2.pending = st.pending := by
  by_cases hres : resolutionValid c w h = false
  · simp [set_video_settings, hres, VsResponse.status]
  · have hfps : fpsValid c w h fps = false := by
      rcases hbad with hb | hb
      · exact absurd hb hres
      · exact hb
    have hres' : resolutionValid c w h = true := by
      cases hr : resolutionValid c w h
      · exact absurd hr hres
      · rfl
    simp [set_video_settings, hres', hfps, VsResponse.status]

unseal Rat.mul Rat.add Rat.sub Rat.inv in
/-- Witness for C6: the spec's S5 scenario - request 1920x1080@60 against
capabilities listing only 640x480 and 1280x720. -/
theorem C6_invalid_settings_rejected_witness :
    ((set_video_settings ⟨640, 480, 30, 640, 480, 30, ⟨none, none, none, false⟩⟩
        1920 1080 60
        (some ⟨[⟨640, 480, [30, 15]⟩, ⟨1280, 720, [30]⟩]⟩) true).1 =
          .invalidResolution ∨
      (set_video_settings ⟨640, 480, 30, 640, 480, 30, ⟨none, none, none, false⟩⟩
        1920 1080 60
        (some ⟨[⟨640, 480, [30, 15]⟩, ⟨1280, 720, [30]⟩]⟩) true).1 =
          .invalidFramerate) ∧
    (set_video_settings ⟨640, 480, 30, 640, 480, 30, ⟨none, none, none, false⟩⟩
      1920 1080 60
      (some ⟨[⟨640, 480, [30, 15]⟩, ⟨1280, 720, [30]⟩]⟩) true).1.status = 400 ∧
    (set_video_settings ⟨640, 480, 30, 640, 480, 30, ⟨none, none, none, false⟩⟩
      1920 1080 60
      (some ⟨[⟨640, 480, [30, 15]⟩, ⟨1280, 720, [30]⟩]⟩) true).2 =
        ⟨640, 480, 30, 640, 480, 30, ⟨none, none, none, false⟩⟩ ∧
    (set_video_settings ⟨640, 480, 30, 640, 480, 30, ⟨none, none, none, false⟩⟩
      1920 1080 60
      (some ⟨[⟨640, 480, [30, 15]⟩, ⟨1280, 720, [30]⟩]⟩) true).2.persistedWidth =
        640 ∧
    (set_video_settings ⟨640, 480, 30, 640, 480, 30, ⟨none, none, none, false⟩⟩
      1920 1080 60
      (some ⟨[⟨640, 480, [30, 15]⟩, ⟨1280, 720, [30]⟩]⟩) true).2.persistedHeight =
        480 ∧
    (set_video_settings ⟨640, 480, 30, 640, 480, 30, ⟨none, none, none, false⟩⟩
      1920 1080 60
      (some ⟨[⟨640, 480, [30, 15]⟩, ⟨1280, 720, [30]⟩]⟩) true).2.persistedFps =
        30 ∧
    (set_video_settings ⟨640, 480, 30, 640, 480, 30, ⟨none, none, none, false⟩⟩
      1920 1080 60
      (some ⟨[⟨640, 480, [30, 15]⟩, ⟨1280, 720, [30]⟩]⟩) true).2.pending =
        ⟨none, none, none, false⟩ :=
  C6_invalid_settings_rejected
    ⟨640, 480, 30, 640, 480, 30, ⟨none, none, none, false⟩⟩ 1920 1080 60
    ⟨[⟨640, 480, [30, 15]⟩, ⟨1280, 720, [30]⟩]⟩ true (Or.inl (by decide))

/-! ## Claim C8 -/

/-- Claim C8: in `yuyv_to_rgb_corrected`, Limited range expands every luma
sample as `((Y−16)·298)>>8` and every chroma sample as `((C−128)·291)>>8`,
while Full range passes samples through unchanged (`Y' = Y`, `C' = C−128`);
and the limited-range black group `[16,128,16,128]` under BT.709 yields RGB
with every channel below 10. -/
theorem C8_range_expansion :
    (∀ y : ℤ, expandLuma .limited y = Int.fdiv ((y - 16) * 298) 256) ∧
    (∀ c : ℤ, expandChroma .limited c = Int.fdiv ((c - 128) * 291) 256) ∧
    (∀ y : ℤ, expandLuma .full y = y) ∧
    (∀ c : ℤ, expandChroma .full c = c - 128) ∧
    (yuyv_to_rgb_corrected [16, 128, 16, 128] [0, 0, 0, 0, 0, 0] 2 1
        .bt709 .limited).all (fun b => b < 10) = true := by
  refine ⟨fun y => rfl, fun c => rfl, fun y => ?_, fun c => ?_, by decide⟩
  · simp only [expandLuma, asr8, rangeParams, sub_zero]
    exact Int.mul_fdiv_cancel y (by norm_num)
  · simp only [expandChroma, asr8, rangeParams]
    exact Int.mul_fdiv_cancel (c - 128) (by norm_num)

/-! ## Claim C3 -/

theorem getD_flatMap_grid {α : Type} (d : α) (g : ℕ → List α) (L : ℕ)
    (hL : ∀ j, (g j).length = L) :
    ∀ (n k y x : ℕ), y < n → x < L →
      ((List.range' k n).flatMap g).getD (y * L + x) d = (g (k + y)).getD x d := by
  intro n
  induction n with
  | zero => intro k y x hy hx; omega
  | succ n ih =>
    intro k y x hy hx
    rw [List.range'_succ, List.flatMap_cons]
    cases y with
    | zero =>
      simp only [Nat.zero_mul, Nat.zero_add, Nat.add_zero]
      rw [List.getD_eq_getElem?_getD, List.getElem?_append_left
        (by rw [hL k]; omega)]
      rw [← List.getD_eq_getElem?_getD]
    | succ y' =>
      have hidx : (y' + 1) * L + x = L + (y' * L + x) := by ring
      rw [hidx]
      rw [List.getD_eq_getElem?_getD]
      have hlen : (g k).length ≤ L + (y' * L + x) := by rw [hL k]; omega
      rw [List.getElem?_append_right hlen]
      rw [hL k, Nat.add_sub_cancel_left, ← List.getD_eq_getElem?_getD,
        ih (k + 1) y' x (by omega) hx]
      have harg : k + 1 + y' = k + (y' + 1) := by omega
      rw [harg]

/-- Claim C3: when the 8x8 DLT system solved for the LUT direction (full
frame -> source corners) is singular - some pivot below `1e-10` during the
partial-pivoting elimination - the computed homography is the identity
matrix, and the 4-corner-mode perspective transform has an identity LUT:
`LUT[y·W + x] = (x, y)` for every destination pixel. -/
theorem C3_singular_homography_identity (cal : Calibration)
    (width height : ℕ) (hempty : cal.edge_points = [])
    (hsing : forwardElim
        (dltMatrix (Calibration.get_dest_corners width height)
          (cal.get_source_corners width height))
        (dltRhs (cal.get_source_corners width height)) = none) :
    compute_homography (Calibration.get_dest_corners width height)
        (cal.get_source_corners width height) =
      [1, 0, 0, 0, 1, 0, 0, 0, 1] ∧
    ∀ x y : ℕ, x < width → y < height →
      (PerspectiveTransform.from_calibration cal width height).lut.getD
          (y * width + x) (0, 0) = ((x : ℚ), (y : ℚ)) := by
  have hch : compute_homography (Calibration.get_dest_corners width height)
      (cal.get_source_corners width height) = [1, 0, 0, 0, 1, 0, 0, 0, 1] := by
    unfold compute_homography solve_linear_system
    rw [hsing]
    rfl
  refine ⟨hch, ?_⟩
  intro x y hx hy
  have hid : ∀ a b : ℚ, apply_homography [1, 0, 0, 0, 1, 0, 0, 0, 1] a b =
      (a, b) := by
    intro a b
    unfold apply_homography
    rw [if_neg]
    · norm_num
    · norm_num [epsTiny]
  unfold PerspectiveTransform.from_calibration
  rw [if_pos (by rw [List.isEmpty_iff]; exact hempty)]
  unfold PerspectiveTransform.compute
  simp only [hch]
  have hgrid := getD_flatMap_grid (α := ℚ × ℚ) ((0 : ℚ), (0 : ℚ))
    (fun (j : ℕ) => (List.range width).map
      (fun (dst_x : ℕ) => apply_homography [1, 0, 0, 0, 1, 0, 0, 0, 1]
        ((dst_x : ℚ)) ((j : ℚ))))
    width (fun j => by simp) height 0 y x hy hx
  rw [List.range_eq_range', hgrid, Nat.zero_add, List.getD_eq_getElem?_getD,
    List.getElem?_map, List.getElem?_range hx]
  simp [hid]

/-- A degenerate calibration (all corners at the origin), whose DLT system
for the LUT direction is singular. -/
def calDegenerate : Calibration :=
  { corners := [⟨0, 0⟩, ⟨0, 0⟩, ⟨0, 0⟩, ⟨0, 0⟩]
    edge_points := []
    next_edge_point_id := 100
    enabled := true }

set_option maxRecDepth 40000 in
unseal Rat.mul Rat.add Rat.sub Rat.inv in
/-- Witness for C3: the degenerate calibration on a 2x2 output. -/
theorem C3_singular_homography_identity_witness :
    compute_homography (Calibration.get_dest_corners 2 2)
        (calDegenerate.get_source_corners 2 2) =
      [1, 0, 0, 0, 1, 0, 0, 0, 1] ∧
    (PerspectiveTransform.from_calibration calDegenerate 2 2).lut.getD
        (1 * 2 + 1) (0, 0) = ((1 : ℚ), (1 : ℚ)) :=
  ⟨(C3_singular_homography_identity calDegenerate 2 2 rfl (by decide)).1,
   (C3_singular_homography_identity calDegenerate 2 2 rfl (by decide)).2
     1 1 (by norm_num) (by norm_num)⟩

/-! ## Claim C4 -/

/-- The calibration mutations reachable from the HTTP surface that the claim
quantifies over. -/
inductive CalOp where
  | add (edge : ℕ) (x y : ℚ)
  | remove (id : ℕ)
  | update (id : ℕ) (x y : ℚ)

/-- Apply one operation. -/
def applyOp (c : Calibration) : CalOp → Calibration
  | .add edge x y => (c.add_edge_point edge x y).1
  | .remove id => (c.remove_edge_point id).1
  | .update id x y => update_calibration_point c id x y

/-- Apply a sequence of operations. -/
def runOps (c : Calibration) (ops : List CalOp) : Calibration :=
  ops.foldl applyOp c

/-- The id-discipline invariant: `next_edge_point_id ≥ 100`, live ids are
pairwise distinct, and every live id is strictly below the counter. -/
def CalInv (c : Calibration) : Prop :=
  100 ≤ c.next_edge_point_id ∧
  (c.edge_points.map (fun p => p.id)).Nodup ∧
  ∀ p ∈ c.edge_points, p.id < c.next_edge_point_id

theorem update_first_id_map (pts : List EdgePoint) (id : ℕ) (x y t : ℚ) :
    (update_first_edge_point pts id x y t).map (fun p => p.id) =
      pts.map (fun p => p.id) := by
  induction pts with
  | nil => rfl
  | cons p rest ih =>
    by_cases hp : p.id = id <;> simp [update_first_edge_point, hp, ih]

theorem add_edge_point_ids (c : Calibration) (edge : ℕ) (x y : ℚ) :
    ((c.add_edge_point edge x y).1.edge_points.map (fun p => p.id)).Perm
      (c.edge_points.map (fun p => p.id) ++ [c.next_edge_point_id]) := by
  unfold Calibration.add_edge_point
  simp only
  have hperm := (List.perm_insertionSort edgeThenT
    (c.edge_points ++ [EdgePoint.new c.next_edge_point_id edge
      (c.calculate_t_for_edge edge x y) x y])).map (fun p => p.id)
  simpa [EdgePoint.new] using hperm

theorem applyOp_inv (op : CalOp) (c : Calibration) (h : CalInv c) :
    CalInv (applyOp c op) := by
  obtain ⟨h100, hnodup, hbound⟩ := h
  cases op with
  | add edge x y =>
    simp only [applyOp]
    have hids := add_edge_point_ids c edge x y
    have hnext : (c.add_edge_point edge x y).1.next_edge_point_id =
        c.next_edge_point_id + 1 := rfl
    refine ⟨by omega, ?_, ?_⟩
    · rw [hids.nodup_iff]
      rw [List.nodup_append]
      refine ⟨hnodup, List.nodup_singleton _, ?_⟩
      intro a ha hb
      simp only [List.mem_singleton] at hb
      subst hb
      rcases List.mem_map.mp ha with ⟨p, hp, hpid⟩
      have := hbound p hp
      omega
    · intro p hp
      rw [hnext]
      have hmem : p.id ∈ (c.add_edge_point edge x y).1.edge_points.map
          (fun q => q.id) := List.mem_map_of_mem _ hp
      have := hids.mem_iff.mp hmem
      rcases List.mem_append.mp this with hin | hin
      · rcases List.mem_map.mp hin with ⟨q, hq, hqid⟩
        have := hbound q hq
        omega
      · simp only [List.mem_singleton] at hin
        omega
  | remove id =>
    simp only [applyOp]
    refine ⟨h100, ?_, ?_⟩
    · have hsub : ((c.edge_points.filter (fun p => p.id != id)).map
          (fun p => p.id)).Sublist (c.edge_points.map (fun p => p.id)) :=
        (List.filter_sublist _).map _
      exact hnodup.sublist hsub
    · intro p hp
      exact hbound p (List.mem_of_mem_filter hp)
  | update id x y =>
    simp only [applyOp]
    unfold update_calibration_point
    by_cases hid : id ≤ 3
    · rw [if_pos hid]
      exact ⟨h100, hnodup, hbound⟩
    · rw [if_neg hid]
      unfold Calibration.update_edge_point
      rcases hfind : c.edge_points.find? (fun p => p.id == id) with _ | q
      · rw [hfind]
        exact ⟨h100, hnodup, hbound⟩
      · rw [hfind]
        simp only
        refine ⟨h100, ?_, ?_⟩
        · rw [update_first_id_map]
          exact hnodup
        · intro p hp
          have : p.id ∈ (update_first_edge_point c.edge_points id
              (rclamp (rclamp x 0 1) 0 1) (rclamp (rclamp y 0 1) 0 1)
              (calculate_t_for_edge_static q.edge (rclamp x 0 1)
                (rclamp y 0 1) c.corners)).map (fun r => r.id) :=
            List.mem_map_of_mem _ hp
          rw [update_first_id_map] at this
          rcases List.mem_map.mp this with ⟨r, hr, hrid⟩
          have := hbound r hr
          show p.id < c.next_edge_point_id
          omega

theorem runOps_inv (ops : List CalOp) :
    ∀ c : Calibration, CalInv c → CalInv (runOps c ops) := by
  induction ops with
  | nil => intro c h; exact h
  | cons op rest ih =>
    intro c h
    exact ih (applyOp c op) (applyOp_inv op c h)

/-- Claim C4: id discipline of the edge-point set. `add_edge_point` returns
the old counter value and increments the counter; `remove_edge_point` never
changes it; and along every operation sequence from the default calibration
the counter stays ≥ 100, the live ids are pairwise distinct, and every live
id is strictly below the counter (so a removed id is never reissued). -/
theorem C4_id_discipline :
    (∀ (c : Calibration) (edge : ℕ) (x y : ℚ),
      (c.add_edge_point edge x y).2 = c.next_edge_point_id ∧
      (c.add_edge_point edge x y).1.next_edge_point_id =
        c.next_edge_point_id + 1) ∧
    (∀ (c : Calibration) (id : ℕ),
      (c.remove_edge_point id).1.next_edge_point_id =
        c.next_edge_point_id) ∧
    (∀ ops : List CalOp,
      100 ≤ (runOps Calibration.default ops).next_edge_point_id ∧
      ((runOps Calibration.default ops).edge_points.map
        (fun p => p.id)).Nodup ∧
      ∀ p ∈ (runOps Calibration.default ops).edge_points,
        p.id < (runOps Calibration.default ops).next_edge_point_id) := by
  refine ⟨fun c edge x y => ⟨rfl, rfl⟩, fun c id => rfl, fun ops => ?_⟩
  have hdef : CalInv Calibration.default := by
    refine ⟨by norm_num [Calibration.default], by simp [Calibration.default], ?_⟩
    intro p hp
    simp [Calibration.default] at hp
  exact runOps_inv ops Calibration.default hdef

/-! ## Claim C7 -/

theorem writeGroup_length (vals : ℕ → ℕ) (rgb : List ℕ) (i : ℕ) :
    (writeGroup vals rgb i).length = rgb.length := by
  simp [writeGroup]

theorem convertLoop_getD_lt (valsAt : ℕ → ℕ → ℕ) (yuyvLen : ℕ) :
    ∀ (rem i : ℕ) (rgb : List ℕ) (pos : ℕ), pos < 6 * i →
      (convertLoop valsAt yuyvLen rgb i rem).getD pos 0 = rgb.getD pos 0 := by
  intro rem
  induction rem with
  | zero => intro i rgb pos _; rfl
  | succ rem ih =>
    intro i rgb pos hpos
    unfold convertLoop
    split
    · rfl
    · rw [ih (i + 1) _ pos (by omega)]
      unfold writeGroup
      rw [getD_set_ne _ _ _ _ _ (by omega), getD_set_ne _ _ _ _ _ (by omega),
        getD_set_ne _ _ _ _ _ (by omega), getD_set_ne _ _ _ _ _ (by omega),
        getD_set_ne _ _ _ _ _ (by omega), getD_set_ne _ _ _ _ _ (by omega)]

theorem writeGroup_getD (vals : ℕ → ℕ) (rgb : List ℕ) (i c : ℕ)
    (hc : c ≤ 5) (hlen : 6 * i + 5 < rgb.length) :
    (writeGroup vals rgb i).getD (6 * i + c) 0 = vals c := by
  interval_cases c <;>
  · simp only [writeGroup, List.getD_eq_getElem?_getD, List.getElem?_set,
      List.length_set]
    split_ifs <;> first | rfl | (exfalso; omega)

theorem convertLoop_getD (valsAt : ℕ → ℕ → ℕ) (yuyvLen : ℕ) :
    ∀ (rem i : ℕ) (rgb : List ℕ) (tgt c : ℕ),
      i ≤ tgt → tgt < i + rem → c ≤ 5 →
      4 * tgt + 3 < yuyvLen → 6 * tgt + 5 < rgb.length →
      (convertLoop valsAt yuyvLen rgb i rem).getD (6 * tgt + c) 0 =
        valsAt tgt c := by
  intro rem
  induction rem with
  | zero => intro i rgb tgt c h1 h2; omega
  | succ rem ih =>
    intro i rgb tgt c h1 h2 hc hyl hrl
    unfold convertLoop
    rw [if_neg (by omega)]
    rcases Nat.eq_or_lt_of_le h1 with heq | hlt
    · subst heq
      rw [convertLoop_getD_lt valsAt yuyvLen rem (i + 1) _ _ (by omega)]
      exact writeGroup_getD _ _ _ _ hc hrl
    · exact ih (i + 1) (writeGroup (valsAt i) rgb i) tgt c (by omega)
        (by omega) hc hyl (by rw [writeGroup_length]; exact hrl)

/-- Claim C7: for every group of four input bytes `[Y0, U, Y1, V]` (group
`i`, in bounds), the fast-path converter stores two RGB triplets computed
with integer BT.601 coefficients scaled by 256 - `R = Y + (359·V)>>8`,
`G = Y − (88·U + 183·V)>>8`, `B = Y + (454·U)>>8` with `U, V` biased by
−128 and both pixels sharing one `(U, V)` pair - each channel clamped to
`[0, 255]`. -/
theorem C7_yuyv_to_rgb_formula (yuyv rgb : List ℕ) (width height i : ℕ)
    (hi : i < width * height / 2) (hyl : 4 * i + 3 < yuyv.length)
    (hrl : 6 * i + 5 < rgb.length) :
    (yuyv_to_rgb yuyv rgb width height).getD (6 * i) 0 =
      clamp0255 ((yuyv.getD (4 * i) 0 : ℤ) +
        asr8 (359 * ((yuyv.getD (4 * i + 3) 0 : ℤ) - 128))) ∧
    (yuyv_to_rgb yuyv rgb width height).getD (6 * i + 1) 0 =
      clamp0255 ((yuyv.getD (4 * i) 0 : ℤ) -
        asr8 (88 * ((yuyv.getD (4 * i + 1) 0 : ℤ) - 128) +
          183 * ((yuyv.getD (4 * i + 3) 0 : ℤ) - 128))) ∧
    (yuyv_to_rgb yuyv rgb width height).getD (6 * i + 2) 0 =
      clamp0255 ((yuyv.getD (4 * i) 0 : ℤ) +
        asr8 (454 * ((yuyv.getD (4 * i + 1) 0 : ℤ) - 128))) ∧
    (yuyv_to_rgb yuyv rgb width height).getD (6 * i + 3) 0 =
      clamp0255 ((yuyv.getD (4 * i + 2) 0 : ℤ) +
        asr8 (359 * ((yuyv.getD (4 * i + 3) 0 : ℤ) - 128))) ∧
    (yuyv_to_rgb yuyv rgb width height).getD (6 * i + 4) 0 =
      clamp0255 ((yuyv.getD (4 * i + 2) 0 : ℤ) -
        asr8 (88 * ((yuyv.getD (4 * i + 1) 0 : ℤ) - 128) +
          183 * ((yuyv.getD (4 * i + 3) 0 : ℤ) - 128))) ∧
    (yuyv_to_rgb yuyv rgb width height).getD (6 * i + 5) 0 =
      clamp0255 ((yuyv.getD (4 * i + 2) 0 : ℤ) +
        asr8 (454 * ((yuyv.getD (4 * i + 1) 0 : ℤ) - 128))) := by
  have h0 := convertLoop_getD (yuyvGroupVals yuyv) yuyv.length
    (width * height / 2) 0 rgb i 0 (by omega) (by omega) (by omega) hyl hrl
  have h1 := convertLoop_getD (yuyvGroupVals yuyv) yuyv.length
    (width * height / 2) 0 rgb i 1 (by omega) (by omega) (by omega) hyl hrl
  have h2 := convertLoop_getD (yuyvGroupVals yuyv) yuyv.length
    (width * height / 2) 0 rgb i 2 (by omega) (by omega) (by omega) hyl hrl
  have h3 := convertLoop_getD (yuyvGroupVals yuyv) yuyv.length
    (width * height / 2) 0 rgb i 3 (by omega) (by omega) (by omega) hyl hrl
  have h4 := convertLoop_getD (yuyvGroupVals yuyv) yuyv.length
    (width * height / 2) 0 rgb i 4 (by omega) (by omega) (by omega) hyl hrl
  have h5 := convertLoop_getD (yuyvGroupVals yuyv) yuyv.length
    (width * height / 2) 0 rgb i 5 (by omega) (by omega) (by omega) hyl hrl
  exact ⟨h0, h1, h2, h3, h4, h5⟩

/-- Witness for C7 at the byte group `[90, 50, 200, 150]` on a 2x1 frame. -/
theorem C7_yuyv_to_rgb_formula_witness :
    (yuyv_to_rgb [90, 50, 200, 150] [0, 0, 0, 0, 0, 0] 2 1).getD (6 * 0) 0 =
      clamp0255 (((([90, 50, 200, 150] : List ℕ).getD (4 * 0) 0 : ℤ)) +
        asr8 (359 * ((([90, 50, 200, 150] : List ℕ).getD (4 * 0 + 3) 0 : ℤ) -
          128))) ∧
    (yuyv_to_rgb [90, 50, 200, 150] [0, 0, 0, 0, 0, 0] 2 1).getD (6 * 0 + 1) 0 =
      clamp0255 (((([90, 50, 200, 150] : List ℕ).getD (4 * 0) 0 : ℤ)) -
        asr8 (88 * ((([90, 50, 200, 150] : List ℕ).getD (4 * 0 + 1) 0 : ℤ) -
            128) +
          183 * ((([90, 50, 200, 150] : List ℕ).getD (4 * 0 + 3) 0 : ℤ) -
            128))) ∧
    (yuyv_to_rgb [90, 50, 200, 150] [0, 0, 0, 0, 0, 0] 2 1).getD (6 * 0 + 2) 0 =
      clamp0255 (((([90, 50, 200, 150] : List ℕ).getD (4 * 0) 0 : ℤ)) +
        asr8 (454 * ((([90, 50, 200, 150] : List ℕ).getD (4 * 0 + 1) 0 : ℤ) -
          128))) ∧
    (yuyv_to_rgb [90, 50, 200, 150] [0, 0, 0, 0, 0, 0] 2 1).getD (6 * 0 + 3) 0 =
      clamp0255 (((([90, 50, 200, 150] : List ℕ).getD (4 * 0 + 2) 0 : ℤ)) +
        asr8 (359 * ((([90, 50, 200, 150] : List ℕ).getD (4 * 0 + 3) 0 : ℤ) -
          128))) ∧
    (yuyv_to_rgb [90, 50, 200, 150] [0, 0, 0, 0, 0, 0] 2 1).getD (6 * 0 + 4) 0 =
      clamp0255 (((([90, 50, 200, 150] : List ℕ).getD (4 * 0 + 2) 0 : ℤ)) -
        asr8 (88 * ((([90, 50, 200, 150] : List ℕ).getD (4 * 0 + 1) 0 : ℤ) -
            128) +
          183 * ((([90, 50, 200, 150] : List ℕ).getD (4 * 0 + 3) 0 : ℤ) -
            128))) ∧
    (yuyv_to_rgb [90, 50, 200, 150] [0, 0, 0, 0, 0, 0] 2 1).getD (6 * 0 + 5) 0 =
      clamp0255 (((([90, 50, 200, 150] : List ℕ).getD (4 * 0 + 2) 0 : ℤ)) +
        asr8 (454 * ((([90, 50, 200, 150] : List ℕ).getD (4 * 0 + 1) 0 : ℤ) -
          128))) :=
  C7_yuyv_to_rgb_formula [90, 50, 200, 150] [0, 0, 0, 0, 0, 0] 2 1 0
    (by norm_num) (by norm_num) (by norm_num)

/-! ## Claim C2 : supporting lemmas -/

theorem rat_floor_eq_int_floor (q : ℚ) : q.floor = ⌊q⌋ := rfl

theorem getD_zero_eq_head? {α : Type} (l : List α) (d : α) :
    l.getD 0 d = l.head?.getD d := by
  cases l <;> rfl

theorem getD_length_sub_one {α : Type} :
    ∀ (l : List α) (d : α), l.getD (l.length - 1) d = l.getLast?.getD d := by
  intro l
  induction l with
  | nil => intro d; rfl
  | cons a t ih =>
    intro d
    cases t with
    | nil => rfl
    | cons b m =>
      have hlen : (a :: b :: m).length - 1 = m.length + 1 := by
        simp [List.length_cons]
      rw [hlen, List.getD_cons_succ, List.getLast?_cons_cons]
      have := ih d
      simpa [List.length_cons] using this

theorem orderedInsert_getLast? (b : ℚ × (ℚ × ℚ)) :
    ∀ (M : List (ℚ × (ℚ × ℚ))) (lst : ℚ × (ℚ × ℚ)),
      M.getLast? = some lst → b.1 ≤ lst.1 →
      (M.orderedInsert tKeyLe b).getLast? = some lst := by
  intro M
  induction M with
  | nil => intro lst h; simp at h
  | cons x xs ih =>
    intro lst hlast hle
    cases xs with
    | nil =>
      simp only [List.getLast?_singleton, Option.some.injEq] at hlast
      subst hlast
      rw [List.orderedInsert, if_pos (show tKeyLe b x from hle)]
      rfl
    | cons x2 xs2 =>
      rw [List.getLast?_cons_cons] at hlast
      rw [List.orderedInsert]
      split
      · rw [List.getLast?_cons_cons, List.getLast?_cons_cons]
        exact hlast
      · have hrec := ih lst hlast hle
        have hne : List.orderedInsert tKeyLe b (x2 :: xs2) ≠ [] := by
          intro hnil
          have hlen := congrArg List.length hnil
          rw [List.orderedInsert_length] at hlen
          simp at hlen
        obtain ⟨c, rest, hcr⟩ := List.exists_cons_of_ne_nil hne
        rw [hcr] at hrec ⊢
        rw [List.getLast?_cons_cons]
        exact hrec

theorem insertionSort_concat_getLast? (e : ℚ × (ℚ × ℚ)) :
    ∀ (L : List (ℚ × (ℚ × ℚ))), (∀ b ∈ L, b.1 ≤ e.1) →
      (List.insertionSort tKeyLe (L ++ [e])).getLast? = some e := by
  intro L
  induction L with
  | nil => intro _; rfl
  | cons a L ih =>
    intro h
    rw [List.cons_append, List.insertionSort]
    exact orderedInsert_getLast? a _ e
      (ih (fun b hb => h b (List.mem_cons_of_mem _ hb)))
      (h a (List.mem_cons_self _ _))

theorem build_edge_sequence_head? (start stop : ℚ × ℚ)
    (pts : List EdgePoint) (width height : ℕ)
    (ht : ∀ p ∈ pts, 0 ≤ p.t) :
    (build_edge_sequence start stop pts width height).head? = some start := by
  simp only [build_edge_sequence]
  rw [List.insertionSort_cons]
  · rfl
  · intro b hb
    rcases List.mem_append.mp hb with hb | hb
    · rcases List.mem_map.mp hb with ⟨p, hp, hpe⟩
      have := ht p hp
      show (0 : ℚ) ≤ b.1
      rw [← hpe]
      exact this
    · simp only [List.mem_singleton] at hb
      subst hb
      show (0 : ℚ) ≤ 1
      norm_num

theorem build_edge_sequence_getLast? (start stop : ℚ × ℚ)
    (pts : List EdgePoint) (width height : ℕ)
    (ht : ∀ p ∈ pts, p.t ≤ 1) :
    (build_edge_sequence start stop pts width height).getLast? = some stop := by
  simp only [build_edge_sequence]
  rw [List.getLast?_map]
  have hsh : (0, start) ::
      (pts.map (fun ep => ((ep.t, (ep.x * (width : ℚ), ep.y * (height : ℚ))) :
        ℚ × (ℚ × ℚ))) ++ [(1, stop)]) =
      ((0, start) :: pts.map (fun ep =>
        ((ep.t, (ep.x * (width : ℚ), ep.y * (height : ℚ))) : ℚ × (ℚ × ℚ)))) ++
        [(1, stop)] := by
    rw [List.cons_append]
  rw [hsh, insertionSort_concat_getLast?]
  · rfl
  · intro b hb
    rcases List.mem_cons.mp hb with hb | hb
    · subst hb
      show (0 : ℚ) ≤ 1
      norm_num
    · rcases List.mem_map.mp hb with ⟨p, hp, hpe⟩
      have := ht p hp
      show b.1 ≤ (1 : ℚ)
      rw [← hpe]
      exact this

theorem build_edge_sequence_length (start stop : ℚ × ℚ)
    (pts : List EdgePoint) (width height : ℕ) :
    (build_edge_sequence start stop pts width height).length =
      pts.length + 2 := by
  simp only [build_edge_sequence, List.length_map, List.length_insertionSort,
    List.length_cons, List.length_append, List.length_singleton,
    List.length_nil]

theorem build_edge_sequence_ne_nil (start stop : ℚ × ℚ)
    (pts : List EdgePoint) (width height : ℕ) :
    build_edge_sequence start stop pts width height ≠ [] := by
  intro h
  have := build_edge_sequence_length start stop pts width height
  rw [h] at this
  simp at this

theorem mem_get_edge_points {cal : Calibration} {e : ℕ} {p : EdgePoint}
    (h : p ∈ cal.get_edge_points e) : p ∈ cal.edge_points := by
  unfold Calibration.get_edge_points at h
  rw [List.mem_insertionSort] at h
  exact List.mem_of_mem_filter h

theorem resample_edge_length (edge : List (ℚ × ℚ)) (count : ℕ) :
    (resample_edge edge count).length = count := by
  unfold resample_edge
  split_ifs with h1 h2 h3
  · exact h1
  · simp [h2]
  · simp [h3]
  · simp

theorem lerpPt_zero (p q : ℚ × ℚ) : lerpPt p q 0 = p := by
  simp [lerpPt]

theorem resample_edge_head (edge : List (ℚ × ℚ)) (count : ℕ)
    (hc : 2 ≤ count) (hne : edge ≠ []) :
    (resample_edge edge count).getD 0 (0, 0) = edge.getD 0 (0, 0) := by
  have hel : 1 ≤ edge.length := List.length_pos.mpr hne
  unfold resample_edge
  split_ifs with h1 h2 h3
  · rfl
  · omega
  · omega
  · rw [List.getD_eq_getElem?_getD, List.getElem?_map,
      List.getElem?_range (by omega : 0 < count)]
    simp only [Option.map_some', Option.getD_some, Nat.cast_zero, zero_div,
      zero_mul, rat_floor_eq_int_floor, Int.floor_zero, Int.toNat_zero,
      sub_zero, lerpPt_zero]
    split_ifs with h4
    · have : edge.length - 1 = 0 := by omega
      rw [this]
    · rfl

theorem resample_edge_last (edge : List (ℚ × ℚ)) (count : ℕ)
    (hc : 2 ≤ count) (hne : edge ≠ []) :
    (resample_edge edge count).getD (count - 1) (0, 0) =
      edge.getD (edge.length - 1) (0, 0) := by
  have hel : 1 ≤ edge.length := List.length_pos.mpr hne
  unfold resample_edge
  split_ifs with h1 h2 h3
  · rw [h1]
  · omega
  · omega
  · rw [List.getD_eq_getElem?_getD, List.getElem?_map,
      List.getElem?_range (by omega : count - 1 < count)]
    have hden : (((count - 1 : ℕ) : ℚ)) ≠ 0 := by
      rw [Nat.cast_ne_zero]
      omega
    simp only [Option.map_some', Option.getD_some, div_self hden, one_mul,
      rat_floor_eq_int_floor, Int.floor_natCast, Int.toNat_natCast]
    rw [if_pos (le_refl _)]

theorem gridPointAt_row_zero (T B L R : List (ℚ × ℚ)) (cols rows col : ℕ)
    (hrows : 1 < rows) (hcols : 1 < cols)
    (hL0 : L.getD 0 (0, 0) = T.getD 0 (0, 0))
    (hR0 : R.getD 0 (0, 0) = T.getD (cols - 1) (0, 0)) :
    gridPointAt T B L R cols rows 0 col = T.getD col (0, 0) := by
  simp only [gridPointAt, if_pos hrows, if_pos hcols, Nat.cast_zero, zero_div]
  rw [hL0, hR0]
  rw [Prod.ext_iff]
  constructor <;> · simp only; ring

theorem gridPointAt_row_last (T B L R : List (ℚ × ℚ)) (cols rows col : ℕ)
    (hrows : 1 < rows) (hcols : 1 < cols)
    (hL1 : L.getD (rows - 1) (0, 0) = B.getD 0 (0, 0))
    (hR1 : R.getD (rows - 1) (0, 0) = B.getD (cols - 1) (0, 0)) :
    gridPointAt T B L R cols rows (rows - 1) col = B.getD col (0, 0) := by
  have hv : (((rows - 1 : ℕ) : ℚ)) / (((rows - 1 : ℕ) : ℚ)) = 1 :=
    div_self (by rw [Nat.cast_ne_zero]; omega)
  simp only [gridPointAt, if_pos hrows, if_pos hcols, hv]
  rw [hL1, hR1]
  rw [Prod.ext_iff]
  constructor <;> · simp only; ring

theorem gridPointAt_col_zero (T B L R : List (ℚ × ℚ)) (cols rows row : ℕ)
    (hrows : 1 < rows) (hcols : 1 < cols) :
    gridPointAt T B L R cols rows row 0 = L.getD row (0, 0) := by
  simp only [gridPointAt, if_pos hrows, if_pos hcols, Nat.cast_zero, zero_div]
  rw [Prod.ext_iff]
  constructor <;> · simp only; ring

theorem gridPointAt_col_last (T B L R : List (ℚ × ℚ)) (cols rows row : ℕ)
    (hrows : 1 < rows) (hcols : 1 < cols) :
    gridPointAt T B L R cols rows row (cols - 1) = R.getD row (0, 0) := by
  have hu : (((cols - 1 : ℕ) : ℚ)) / (((cols - 1 : ℕ) : ℚ)) = 1 :=
    div_self (by rw [Nat.cast_ne_zero]; omega)
  simp only [gridPointAt, if_pos hrows, if_pos hcols, hu]
  rw [Prod.ext_iff]
  constructor <;> · simp only; ring

theorem from_calibration_grid (cal : Calibration) (width height : ℕ) :
    (SourceMesh.from_calibration cal width height).grid =
      (List.range (meshRows cal width height)).map (fun row =>
        (List.range (meshCols cal width height)).map (fun col =>
          gridPointAt (meshTopR cal width height)
            (meshBottomR cal width height) (meshLeftR cal width height)
            (meshRightR cal width height) (meshCols cal width height)
            (meshRows cal width height) row col)) := rfl

theorem mesh_grid_row (cal : Calibration) (width height r : ℕ)
    (hr : r < meshRows cal width height) :
    (SourceMesh.from_calibration cal width height).grid.getD r [] =
      (List.range (meshCols cal width height)).map (fun col =>
        gridPointAt (meshTopR cal width height) (meshBottomR cal width height)
          (meshLeftR cal width height) (meshRightR cal width height)
          (meshCols cal width height) (meshRows cal width height) r col) := by
  rw [from_calibration_grid, List.getD_eq_getElem _ _ (by simpa using hr),
    List.getElem_map, List.getElem_range]

/-- Claim C2: the Coons-patch source mesh agrees exactly with all four
resampled edge sequences on its boundary: grid row 0 is the resampled top
edge, row `rows−1` the resampled bottom edge, column 0 the resampled left
edge and column `cols−1` the resampled right edge, where
`cols = max(|top|, |bottom|)` and `rows = max(|left|, |right|)`.
(The calibration is assumed to satisfy the data-model invariant
`t ∈ [0, 1]`, which every reachable calibration has since `t` is clamped.) -/
theorem C2_mesh_boundary (cal : Calibration) (width height : ℕ)
    (_hne : cal.edge_points ≠ [])
    (ht : ∀ p ∈ cal.edge_points, 0 ≤ p.t ∧ p.t ≤ 1) :
    ((SourceMesh.from_calibration cal width height).grid.getD 0 [] =
      meshTopR cal width height) ∧
    ((SourceMesh.from_calibration cal width height).grid.getD
        (meshRows cal width height - 1) [] = meshBottomR cal width height) ∧
    (∀ row < meshRows cal width height,
      ((SourceMesh.from_calibration cal width height).grid.getD row []).getD
          0 (0, 0) = (meshLeftR cal width height).getD row (0, 0)) ∧
    (∀ row < meshRows cal width height,
      ((SourceMesh.from_calibration cal width height).grid.getD row []).getD
          (meshCols cal width height - 1) (0, 0) =
        (meshRightR cal width height).getD row (0, 0)) := by
  clear _hne
  -- lengths of the four raw edge sequences
  have htop_len : (meshTopEdge cal width height).length =
      (cal.get_edge_points 0).length + 2 := by
    unfold meshTopEdge
    exact build_edge_sequence_length _ _ _ _ _
  have hright_len : (meshRightEdge cal width height).length =
      (cal.get_edge_points 1).length + 2 := by
    unfold meshRightEdge
    exact build_edge_sequence_length _ _ _ _ _
  have hbottom_len : (meshBottomEdge cal width height).length =
      (cal.get_edge_points 2).length + 2 := by
    unfold meshBottomEdge
    rw [List.length_reverse]
    exact build_edge_sequence_length _ _ _ _ _
  have hleft_len : (meshLeftEdge cal width height).length =
      (cal.get_edge_points 3).length + 2 := by
    unfold meshLeftEdge
    rw [List.length_reverse]
    exact build_edge_sequence_length _ _ _ _ _
  have hcols2 : 2 ≤ meshCols cal width height :=
    le_trans (by rw [htop_len]; omega) (Nat.le_max_left _ _)
  have hrows2 : 2 ≤ meshRows cal width height :=
    le_trans (by rw [hleft_len]; omega) (Nat.le_max_left _ _)
  have htopne : meshTopEdge cal width height ≠ [] :=
    List.length_pos.mp (by rw [htop_len]; omega)
  have hrightne : meshRightEdge cal width height ≠ [] :=
    List.length_pos.mp (by rw [hright_len]; omega)
  have hbottomne : meshBottomEdge cal width height ≠ [] :=
    List.length_pos.mp (by rw [hbottom_len]; omega)
  have hleftne : meshLeftEdge cal width height ≠ [] :=
    List.length_pos.mp (by rw [hleft_len]; omega)
  -- t-bounds of each per-edge point list
  have hlo : ∀ e : ℕ, ∀ p ∈ cal.get_edge_points e, 0 ≤ p.t :=
    fun e p hp => (ht p (mem_get_edge_points hp)).1
  have hhi : ∀ e : ℕ, ∀ p ∈ cal.get_edge_points e, p.t ≤ 1 :=
    fun e p hp => (ht p (mem_get_edge_points hp)).2
  -- endpoints of the raw edge sequences
  have hThead : (meshTopEdge cal width height).getD 0 (0, 0) =
      srcTL cal width height := by
    unfold meshTopEdge
    rw [getD_zero_eq_head?, build_edge_sequence_head? _ _ _ _ _ (hlo 0)]
    rfl
  have hTlast : (meshTopEdge cal width height).getD
      ((meshTopEdge cal width height).length - 1) (0, 0) =
      srcTR cal width height := by
    unfold meshTopEdge
    rw [getD_length_sub_one, build_edge_sequence_getLast? _ _ _ _ _ (hhi 0)]
    rfl
  have hRhead : (meshRightEdge cal width height).getD 0 (0, 0) =
      srcTR cal width height := by
    unfold meshRightEdge
    rw [getD_zero_eq_head?, build_edge_sequence_head? _ _ _ _ _ (hlo 1)]
    rfl
  have hRlast : (meshRightEdge cal width height).getD
      ((meshRightEdge cal width height).length - 1) (0, 0) =
      srcBR cal width height := by
    unfold meshRightEdge
    rw [getD_length_sub_one, build_edge_sequence_getLast? _ _ _ _ _ (hhi 1)]
    rfl
  have hBhead : (meshBottomEdge cal width height).getD 0 (0, 0) =
      srcBL cal width height := by
    unfold meshBottomEdge
    rw [getD_zero_eq_head?, List.head?_reverse,
      build_edge_sequence_getLast? _ _ _ _ _ (hhi 2)]
    rfl
  have hBlast : (meshBottomEdge cal width height).getD
      ((meshBottomEdge cal width height).length - 1) (0, 0) =
      srcBR cal width height := by
    unfold meshBottomEdge
    rw [getD_length_sub_one, List.getLast?_reverse,
      build_edge_sequence_head? _ _ _ _ _ (hlo 2)]
    rfl
  have hLhead : (meshLeftEdge cal width height).getD 0 (0, 0) =
      srcTL cal width height := by
    unfold meshLeftEdge
    rw [getD_zero_eq_head?, List.head?_reverse,
      build_edge_sequence_getLast? _ _ _ _ _ (hhi 3)]
    rfl
  have hLlast : (meshLeftEdge cal width height).getD
      ((meshLeftEdge cal width height).length - 1) (0, 0) =
      srcBL cal width height := by
    unfold meshLeftEdge
    rw [getD_length_sub_one, List.getLast?_reverse,
      build_edge_sequence_head? _ _ _ _ _ (hlo 3)]
    rfl
  -- endpoints of the resampled edges
  have hT0 : (meshTopR cal width height).getD 0 (0, 0) =
      srcTL cal width height := by
    unfold meshTopR
    rw [resample_edge_head _ _ hcols2 htopne, hThead]
  have hT1 : (meshTopR cal width height).getD
      (meshCols cal width height - 1) (0, 0) = srcTR cal width height := by
    unfold meshTopR
    rw [resample_edge_last _ _ hcols2 htopne, hTlast]
  have hB0 : (meshBottomR cal width height).getD 0 (0, 0) =
      srcBL cal width height := by
    unfold meshBottomR
    rw [resample_edge_head _ _ hcols2 hbottomne, hBhead]
  have hB1 : (meshBottomR cal width height).getD
      (meshCols cal width height - 1) (0, 0) = srcBR cal width height := by
    unfold meshBottomR
    rw [resample_edge_last _ _ hcols2 hbottomne, hBlast]
  have hL0 : (meshLeftR cal width height).getD 0 (0, 0) =
      srcTL cal width height := by
    unfold meshLeftR
    rw [resample_edge_head _ _ hrows2 hleftne, hLhead]
  have hL1 : (meshLeftR cal width height).getD
      (meshRows cal width height - 1) (0, 0) = srcBL cal width height := by
    unfold meshLeftR
    rw [resample_edge_last _ _ hrows2 hleftne, hLlast]
  have hR0 : (meshRightR cal width height).getD 0 (0, 0) =
      srcTR cal width height := by
    unfold meshRightR
    rw [resample_edge_head _ _ hrows2 hrightne, hRhead]
  have hR1 : (meshRightR cal width height).getD
      (meshRows cal width height - 1) (0, 0) = srcBR cal width height := by
    unfold meshRightR
    rw [resample_edge_last _ _ hrows2 hrightne, hRlast]
  refine ⟨?_, ?_, ?_, ?_⟩
  · -- row 0 = resampled top edge
    rw [mesh_grid_row cal width height 0 (by omega)]
    apply List.ext_getElem
    · simp [List.length_map, List.length_range, meshTopR, resample_edge_length]
    · intro n h1 h2
      rw [List.getElem_map, List.getElem_range]
      rw [gridPointAt_row_zero _ _ _ _ _ _ _ (by omega) (by omega)
        (hL0.trans hT0.symm) (hR0.trans hT1.symm)]
      exact List.getD_eq_getElem _ _ h2
  · -- row rows−1 = resampled bottom edge
    rw [mesh_grid_row cal width height (meshRows cal width height - 1)
      (by omega)]
    apply List.ext_getElem
    · simp [List.length_map, List.length_range, meshBottomR,
        resample_edge_length]
    · intro n h1 h2
      rw [List.getElem_map, List.getElem_range]
      rw [gridPointAt_row_last _ _ _ _ _ _ _ (by omega) (by omega)
        (hL1.trans hB0.symm) (hR1.trans hB1.symm)]
      exact List.getD_eq_getElem _ _ h2
  · -- column 0 = resampled left edge
    intro row hrow
    rw [mesh_grid_row cal width height row hrow]
    rw [List.getD_eq_getElem _ _ (by simpa using by omega : 0 <
      ((List.range (meshCols cal width height)).map _).length)]
    rw [List.getElem_map, List.getElem_range]
    exact gridPointAt_col_zero _ _ _ _ _ _ _ (by omega) (by omega)
  · -- column cols−1 = resampled right edge
    intro row hrow
    rw [mesh_grid_row cal width height row hrow]
    rw [List.getD_eq_getElem _ _ (by simpa using by omega :
      meshCols cal width height - 1 <
      ((List.range (meshCols cal width height)).map _).length)]
    rw [List.getElem_map, List.getElem_range]
    exact gridPointAt_col_last _ _ _ _ _ _ _ (by omega) (by omega)

/-- The calibration of the repository's `test_source_mesh_with_edge_point`:
default corners with one top-edge point at `t = 1/2`, `(0.5, 0.15)`. -/
def calOneEdge : Calibration :=
  { Calibration.default with
      edge_points := [EdgePoint.new 100 0 (1/2) (1/2) (15/100)] }

set_option maxRecDepth 40000 in
unseal Rat.mul Rat.add Rat.sub Rat.inv in
/-- Witness for C2 on `calOneEdge` at output size 100x100 (a 3x2 grid),
with the column conjuncts instantiated at row 1. -/
theorem C2_mesh_boundary_witness :
    ((SourceMesh.from_calibration calOneEdge 100 100).grid.getD 0 [] =
      meshTopR calOneEdge 100 100) ∧
    ((SourceMesh.from_calibration calOneEdge 100 100).grid.getD
        (meshRows calOneEdge 100 100 - 1) [] = meshBottomR calOneEdge 100 100) ∧
    ((SourceMesh.from_calibration calOneEdge 100 100).grid.getD 1 []).getD
        0 (0, 0) = (meshLeftR calOneEdge 100 100).getD 1 (0, 0) ∧
    ((SourceMesh.from_calibration calOneEdge 100 100).grid.getD 1 []).getD
        (meshCols calOneEdge 100 100 - 1) (0, 0) =
      (meshRightR calOneEdge 100 100).getD 1 (0, 0) :=
  have h := C2_mesh_boundary calOneEdge 100 100 (by decide) (by decide)
  ⟨h.1, h.2.1, h.2.2.1 1 (by decide), h.2.2.2 1 (by decide)⟩

end HyperCal
